import Mathlib

/-
  Verification of the URL library (an implementation of the WHATWG URL
  Living Standard, snapshot 5f8576e) against its natural-language
  specification.

  The embedding models JavaScript strings as lists of Unicode code points
  (`Str := List Char`).  Where the source depends on UTF-16 peculiarities
  (`String.prototype.length`, surrogate halves) the embedding uses
  `jsLength`, which counts UTF-16 code units; lone surrogates are not
  representable, matching the library's external contract (inputs come
  from well-formed JS strings).

  External collaborators that are not part of the repository sources
  (`domain_to_ascii` from the uts46 package) are taken as parameters; the
  UTF-8 primitives (`utf8Encode` / `utf8Decode`), which live in the
  repository's `util` module that is not among the provided sources, are
  modelled from the spec (section 6: UTF-8 encode/decode with U+FFFD
  replacement on ill-formed input).
-/

namespace Url

/-- JavaScript strings, modelled as their sequence of Unicode code points. -/
abbrev Str := List Char

/-- Byte sequences (`Uint8Array` contents). -/
abbrev Bytes := List Nat

/-- The value of `s.length` in JavaScript: the number of UTF-16 code units
(astral code points count twice). -/
def jsLength (s : Str) : Nat :=
  (s.map (fun c => if 0x10000 ≤ c.toNat then 2 else 1)).sum

/-- The result of reading one position of a `StringWalker`.  `walker.c()`
returns `""` past the end of the string; a negative pointer would read
`this._chars[negative]`, which in JavaScript is `undefined`. -/
inductive JChar where
  | chr (c : Char)
  | eof
  | undef
deriving DecidableEq, Repr

/-- `StringWalker.c()`: the code point at position `p`, the EOF marker `""`
when `p` is at or past the end, and `undefined` when `p` is negative. -/
def charAt (s : Str) (p : Int) : JChar :=
  if p < 0 then JChar.undef
  else
    match s.get? p.toNat with
    | some c => JChar.chr c
    | none => JChar.eof

/-- `StringWalker.remaining()`: the string after the current position
(empty when at or past the end). -/
def remaining (s : Str) (p : Int) : Str :=
  if p < 0 then s.drop ((p + 1).toNat)
  else if p + 1 ≤ 0 then s
  else s.drop (p.toNat + 1)

/-- `StringWalker.substring()`: the string from the current position on. -/
def substringFrom (s : Str) (p : Int) : Str :=
  s.drop p.toNat

def isAsciiAlphaChar (c : Char) : Bool :=
  ('A' ≤ c && c ≤ 'Z') || ('a' ≤ c && c ≤ 'z')

def isAsciiDigitChar (c : Char) : Bool :=
  '0' ≤ c && c ≤ '9'

def isAsciiHexChar (c : Char) : Bool :=
  isAsciiDigitChar c || ('A' ≤ c && c ≤ 'F') || ('a' ≤ c && c ≤ 'f')

/-- `infraCodePoint.ASCIIAlpha.test(walker.c())`.  JavaScript's
`RegExp.test` coerces its argument to a string, so `test(undefined)`
tests the string `"undefined"`, which contains ASCII letters. -/
def testASCIIAlpha : JChar → Bool
  | .chr c => isAsciiAlphaChar c
  | .eof => false
  | .undef => true

/-- `infraCodePoint.ASCIIDigit.test(walker.c())` (the string `"undefined"`
contains no digit). -/
def testASCIIDigit : JChar → Bool
  | .chr c => isAsciiDigitChar c
  | .eof => false
  | .undef => false

/-- `infraCodePoint.ASCIIAlphanumeric.test(walker.c())`. -/
def testASCIIAlphanumeric : JChar → Bool
  | .chr c => isAsciiAlphaChar c || isAsciiDigitChar c
  | .eof => false
  | .undef => true

/-- `infraCodePoint.ASCIIHexDigit.test(walker.c())` (the string
`"undefined"` contains `d`, `e`, `f`). -/
def testASCIIHexDigit : JChar → Bool
  | .chr c => isAsciiHexChar c
  | .eof => false
  | .undef => true

/-- ASCII lowercasing of one code point.  Every call site lowercases either
a code point that already passed an ASCII character-class test or a string
compared against a pure-ASCII literal, so ASCII-only lowering is
observationally equal to `String.prototype.toLowerCase`. -/
def jsToLowerAscii (c : Char) : Char :=
  if 'A' ≤ c && c ≤ 'Z' then Char.ofNat (c.toNat + 32) else c

def lowerStr (s : Str) : Str := s.map jsToLowerAscii

/-- ASCII uppercasing of one code point (used by `toUpperCase` call sites,
which only ever act on ASCII data). -/
def jsToUpperAscii (c : Char) : Char :=
  if 'a' ≤ c && c ≤ 'z' then Char.ofNat (c.toNat - 32) else c

def upperStr (s : Str) : Str := s.map jsToUpperAscii

/-- `buffer += walker.c().toLowerCase()`: appending the lowercased current
code point to a buffer (`undefined` is coerced to the string
`"undefined"` by the string concatenation). -/
def appendLower (s : Str) : JChar → Str
  | .chr c => s ++ [jsToLowerAscii c]
  | .eof => s
  | .undef => s ++ lowerStr "undefined".data

/-- `buffer += walker.c()`. -/
def appendJChar (s : Str) : JChar → Str
  | .chr c => s ++ [c]
  | .eof => s
  | .undef => s ++ "undefined".data

/-- Decimal rendering of a natural number (`Number.prototype.toString`). -/
def natDec (n : Nat) : Str := (Nat.repr n).data

def hexDigitChar (n : Nat) : Char :=
  if n < 10 then Char.ofNat ('0'.toNat + n) else Char.ofNat ('a'.toNat + n - 10)

def toHexAux : Nat → Nat → Str → Str
  | 0, _, acc => acc
  | fuel + 1, n, acc =>
    let acc' := hexDigitChar (n % 16) :: acc
    if n < 16 then acc' else toHexAux fuel (n / 16) acc'

/-- `n.toString(16)`: shortest lowercase hexadecimal rendering. -/
def toHex (n : Nat) : Str := toHexAux (n + 1) n []

/-- Modelled from the spec: `utf8_encode` of one code point (the library's
`utf8Encode` lives in the `util` module, which is not among the provided
sources; section 6 of the spec specifies standard UTF-8). -/
def utf8EncodeChar (c : Char) : Bytes :=
  let n := c.toNat
  if n < 0x80 then [n]
  else if n < 0x800 then [0xC0 + n / 64, 0x80 + n % 64]
  else if n < 0x10000 then
    [0xE0 + n / 4096, 0x80 + (n / 64) % 64, 0x80 + n % 64]
  else
    [0xF0 + n / 262144, 0x80 + (n / 4096) % 64, 0x80 + (n / 64) % 64,
      0x80 + n % 64]

/-- Modelled from the spec: `utf8_encode(string) → bytes`. -/
def utf8Encode (s : Str) : Bytes := (s.map utf8EncodeChar).flatten

def replacementChar : Char := Char.ofNat 0xFFFD

/-- Modelled from the spec: `utf8_decode(bytes) → string` "with U+FFFD
replacement on ill-formed input" (the WHATWG UTF-8 decoder: on an invalid
continuation byte a replacement character is emitted and the offending
byte is reprocessed as a potential lead byte).  Every step consumes at
least one byte, so the fuel `bytes.length` supplied by `utf8Decode` is
never exhausted. -/
def utf8DecodeAux : Nat → Bytes → Str
  | _, [] => []
  | 0, _ :: _ => []
  | fuel + 1, b :: bs =>
    if b ≤ 0x7F then Char.ofNat b :: utf8DecodeAux fuel bs
    else if 0xC2 ≤ b && b ≤ 0xDF then
      match bs with
      | [] => [replacementChar]
      | b1 :: bs1 =>
        if 0x80 ≤ b1 && b1 ≤ 0xBF then
          Char.ofNat ((b - 0xC0) * 64 + (b1 - 0x80)) :: utf8DecodeAux fuel bs1
        else replacementChar :: utf8DecodeAux fuel (b1 :: bs1)
    else if 0xE0 ≤ b && b ≤ 0xEF then
      match bs with
      | [] => [replacementChar]
      | b1 :: bs1 =>
        if (if b = 0xE0 then 0xA0 else 0x80) ≤ b1 &&
            b1 ≤ (if b = 0xED then 0x9F else 0xBF) then
          match bs1 with
          | [] => [replacementChar]
          | b2 :: bs2 =>
            if 0x80 ≤ b2 && b2 ≤ 0xBF then
              Char.ofNat ((b - 0xE0) * 4096 + (b1 - 0x80) * 64 + (b2 - 0x80)) ::
                utf8DecodeAux fuel bs2
            else replacementChar :: utf8DecodeAux fuel bs1
        else replacementChar :: utf8DecodeAux fuel bs
    else if 0xF0 ≤ b && b ≤ 0xF4 then
      match bs with
      | [] => [replacementChar]
      | b1 :: bs1 =>
        if (if b = 0xF0 then 0x90 else 0x80) ≤ b1 &&
            b1 ≤ (if b = 0xF4 then 0x8F else 0xBF) then
          match bs1 with
          | [] => [replacementChar]
          | b2 :: bs2 =>
            if 0x80 ≤ b2 && b2 ≤ 0xBF then
              match bs2 with
              | [] => [replacementChar]
              | b3 :: bs3 =>
                if 0x80 ≤ b3 && b3 ≤ 0xBF then
                  Char.ofNat ((b - 0xF0) * 262144 + (b1 - 0x80) * 4096 +
                      (b2 - 0x80) * 64 + (b3 - 0x80)) :: utf8DecodeAux fuel bs3
                else replacementChar :: utf8DecodeAux fuel bs2
            else replacementChar :: utf8DecodeAux fuel bs1
        else replacementChar :: utf8DecodeAux fuel bs
    else replacementChar :: utf8DecodeAux fuel bs

/-- Modelled from the spec: `utf8_decode(bytes) → string`. -/
def utf8Decode (bs : Bytes) : Str := utf8DecodeAux bs.length bs

/-- A character JavaScript's `parseInt` skips as leading whitespace. -/
def jsWhitespaceChar (c : Char) : Bool :=
  c = '\t' || c = '\n' || c = Char.ofNat 0x0B || c = Char.ofNat 0x0C ||
  c = '\r' || c = ' ' || c = Char.ofNat 0xA0 || c = Char.ofNat 0xFEFF ||
  c = Char.ofNat 0x2028 || c = Char.ofNat 0x2029

def hexCharVal (c : Char) : Nat :=
  if isAsciiDigitChar c then c.toNat - '0'.toNat
  else if 'a' ≤ c && c ≤ 'f' then c.toNat - 'a'.toNat + 10
  else c.toNat - 'A'.toNat + 10

/-- `parseInt(s, 16)`: skip whitespace, optional sign, optional `0x`/`0X`
prefix, then the longest run of hexadecimal digits; `none` is `NaN`. -/
def jsParseIntHex (s : Str) : Option Int :=
  let s1 := s.dropWhile jsWhitespaceChar
  let signAndRest : Int × Str :=
    match s1 with
    | '+' :: r => (1, r)
    | '-' :: r => (-1, r)
    | _ => (1, s1)
  let s2 :=
    match signAndRest.2 with
    | '0' :: x :: r => if x = 'x' || x = 'X' then r else signAndRest.2
    | _ => signAndRest.2
  let digits := s2.takeWhile isAsciiHexChar
  if digits.isEmpty then none
  else some (signAndRest.1 * (digits.foldl (fun a c => a * 16 + hexCharVal c) 0 : Nat))

/-- `ToUint8`: storing a number into a `Uint8Array` (`NaN` becomes `0`,
other values are taken modulo 256). -/
def toUint8 : Option Int → Nat
  | none => 0
  | some v => (v.emod 256).toNat

/-- The local `isHexDigit` closure inside `percentDecode`. -/
def isHexByte (b : Nat) : Bool :=
  (0x30 ≤ b && b ≤ 0x39) || (0x41 ≤ b && b ≤ 0x46) || (0x61 ≤ b && b ≤ 0x66)

/-- `percentDecode(input)`.  Note the source emits `%` verbatim only when
NEITHER of the two following bytes is a hex digit
(`!isHexDigit(input[i+1]) && !isHexDigit(input[i+2])`); otherwise it
feeds the two bytes to `parseInt(·, 16)` and stores the result (NaN
becomes byte 0) even when one of them is not a hex digit. -/
def percentDecode : Bytes → Bytes
  | [] => []
  | b :: b1 :: b2 :: rest =>
    if b ≠ 0x25 then b :: percentDecode (b1 :: b2 :: rest)
    else if !isHexByte b1 && !isHexByte b2 then b :: percentDecode (b1 :: b2 :: rest)
    else toUint8 (jsParseIntHex (utf8Decode [b1, b2])) :: percentDecode rest
  | b :: bs => b :: percentDecode bs

/-- `stringPercentDecode(input)`. -/
def stringPercentDecode (input : Str) : Bytes :=
  percentDecode (utf8Encode input)

/-- `percentEncode(value)`: `%` followed by two ASCII upper hex digits
(`('00' + value.toString(16).toUpperCase()).slice(-2)`). -/
def percentEncode (value : Nat) : Str :=
  let padded := '0' :: '0' :: upperStr (toHex value)
  '%' :: padded.drop (padded.length - 2)

/-- The C0 control percent-encode set (`_c0ControlPercentEncodeSet`):
C0 controls and all code points greater than U+007E. -/
def c0ControlPercentEncodeSet (c : Char) : Bool :=
  c.toNat ≤ 0x1F || 0x7F ≤ c.toNat

/-- The fragment percent-encode set (`_fragmentPercentEncodeSet`). -/
def fragmentPercentEncodeSet (c : Char) : Bool :=
  c0ControlPercentEncodeSet c || c = ' ' || c = '"' || c = '<' || c = '>' ||
  c = '`'

/-- The path percent-encode set (`_pathPercentEncodeSet`). -/
def pathPercentEncodeSet (c : Char) : Bool :=
  fragmentPercentEncodeSet c || c = '#' || c = '?' || c = Char.ofNat 0x7B ||
  c = Char.ofNat 0x7D

/-- The userinfo percent-encode set (`_userInfoPercentEncodeSet`). -/
def userInfoPercentEncodeSet (c : Char) : Bool :=
  pathPercentEncodeSet c || c = '/' || c = ':' || c = ';' || c = '=' ||
  c = '@' || c = '[' || c = '\\' || c = ']' || c = '^' || c = '|'

/-- `utf8PercentEncode(codePoint, percentEncodeSet)`. -/
def utf8PercentEncode (c : Char) (pset : Char → Bool) : Str :=
  if !pset c then [c]
  else ((utf8EncodeChar c).map percentEncode).flatten

/-- `utf8PercentEncode` applied to `walker.c()` (the `undefined` of a
negative pointer coerces to the string `"undefined"`, whose first code
point the regex test would match; no call site reaches that case). -/
def utf8PercentEncodeJ (c : JChar) (pset : Char → Bool) : Str :=
  match c with
  | .chr ch => utf8PercentEncode ch pset
  | .eof => []
  | .undef => "undefined".data

/-- A host: a domain, opaque host or empty host (string), an IPv4 address
(number), or an IPv6 address (array of eight numbers). -/
inductive Host where
  | str (s : Str)
  | ipv4 (n : Nat)
  | ipv6 (pieces : List Nat)
deriving DecidableEq, Repr

/-- The URL record (`URLRecordInternal`).  The blob URL entry is opaque and
only ever null or set, so it is modelled by a boolean. -/
structure URLRec where
  scheme : Str
  username : Str
  password : Str
  host : Option Host
  port : Option Nat
  path : List Str
  query : Option Str
  fragment : Option Str
  cannotBeABaseURLFlag : Bool
  blobURLEntry : Bool
deriving DecidableEq, Repr

/-- `newURL()`. -/
def newURL : URLRec :=
  { scheme := [], username := [], password := [], host := none, port := none,
    path := [], query := none, fragment := none,
    cannotBeABaseURLFlag := false, blobURLEntry := false }

/-- `isSpecialScheme(scheme)`: `scheme in this._defaultPorts`.  The
JavaScript `in` operator consults the prototype chain, so besides the six
keys of `_defaultPorts` it is also true for `"constructor"` (inherited
from `Object.prototype`; the only all-lowercase inherited property name
expressible with scheme code points). -/
def isSpecialScheme (s : Str) : Bool :=
  s = "ftp".data || s = "file".data || s = "http".data || s = "https".data ||
  s = "ws".data || s = "wss".data || s = "constructor".data

def isSpecial (url : URLRec) : Bool := isSpecialScheme url.scheme

/-- `defaultPort(scheme)`: `this._defaultPorts[scheme] || null`.  For
`"file"` the stored value is `null`; for `"constructor"` the inherited
value is a function object, which every caller compares against a number
or `null`, so it behaves exactly like `null` and is modelled as `none`. -/
def defaultPort (s : Str) : Option Nat :=
  if s = "ftp".data then some 21
  else if s = "http".data then some 80
  else if s = "https".data then some 443
  else if s = "ws".data then some 80
  else if s = "wss".data then some 443
  else none

/-- `includesCredentials(url)`. -/
def includesCredentials (url : URLRec) : Bool :=
  url.username ≠ [] || url.password ≠ []

/-- `cannotHaveAUsernamePasswordPort(url)`. -/
def cannotHaveAUsernamePasswordPort (url : URLRec) : Bool :=
  url.host = none || url.host = some (Host.str []) ||
  url.cannotBeABaseURLFlag || url.scheme = "file".data

/-- `iPv4Serializer(address)` (the four-iteration prepend loop, unrolled). -/
def iPv4Serializer (address : Nat) : Str :=
  let o1 := natDec (address % 256)
  let n2 := address / 256
  let o2 := natDec (n2 % 256) ++ '.' :: o1
  let n3 := n2 / 256
  let o3 := natDec (n3 % 256) ++ '.' :: o2
  let n4 := n3 / 256
  natDec (n4 % 256) ++ '.' :: o3

/-- The inner `for j` loop of `iPv6Serializer`: the number of consecutive
pieces equal to 0 starting at index `j`, scanning at most `fuel` further
indices (the loop stops at index 7). -/
def consecZeros (a : List Nat) : Nat → Nat → Nat
  | _, 0 => 0
  | j, fuel + 1 => if a.get? j = some 0 then 1 + consecZeros a (j + 1) fuel else 0

/-- The compress-search loop of `iPv6Serializer`: returns
`(lastIndex, lastCount)` after scanning `i = 0 .. 7`.  (`address[i] !== 0`
holds in JavaScript also when the entry is missing, hence the
`a.get? i = some 0` test.) -/
def findCompressFold (a : List Nat) : Int × Nat :=
  (List.range 8).foldl
    (fun p i =>
      if a.get? i ≠ some 0 then p
      else
        let count := 1 + consecZeros a (i + 1) (7 - i)
        if count > p.2 then ((i : Int), count) else p)
    (-1, 0)

/-- `compress` as computed by `iPv6Serializer` steps 2-3. -/
def iPv6Compress (a : List Nat) : Option Nat :=
  let p := findCompressFold a
  if p.2 > 1 then some p.1.toNat else none

/-- The render loop of `iPv6Serializer` (steps 4-5), with the `ignore0`
flag threaded through the fold.  All callers pass arrays of exactly eight
numbers, so the `getD i 0` read never falls back to the default. -/
def iPv6RenderFold (a : List Nat) (compress : Option Nat) : Str :=
  ((List.range 8).foldl
    (fun (p : Str × Bool) i =>
      if p.2 && a.get? i = some 0 then p
      else if compress = some i then
        (p.1 ++ (if i = 0 then "::".data else [':']), true)
      else
        (p.1 ++ toHex (a.getD i 0) ++ (if i ≠ 7 then [':'] else []), false))
    ([], false)).1

/-- `iPv6Serializer(address)`. -/
def iPv6Serializer (a : List Nat) : Str :=
  iPv6RenderFold a (iPv6Compress a)

/-- `hostSerializer(host)`. -/
def hostSerializer : Host → Str
  | .ipv4 n => iPv4Serializer n
  | .ipv6 l => '[' :: (iPv6Serializer l ++ [']'])
  | .str s => s

/-- `urlSerializer(url, excludeFragmentFlag)`.  For a cannot-be-a-base
record with an empty path, `url.path[0]` is `undefined` and string
concatenation renders it as `"undefined"`. -/
def urlSerializer (url : URLRec) (excludeFragmentFlag : Bool) : Str :=
  let credPart : Str :=
    if includesCredentials url then
      url.username ++
        (if url.password ≠ [] then ':' :: url.password else []) ++ ['@']
    else []
  let hostPart : Str :=
    match url.host with
    | some h =>
      '/' :: '/' :: (credPart ++ hostSerializer h ++
        (match url.port with
         | some p => ':' :: natDec p
         | none => []))
    | none => if url.scheme = "file".data then "//".data else []
  let pathPart : Str :=
    if url.cannotBeABaseURLFlag then
      match url.path with
      | p0 :: _ => p0
      | [] => "undefined".data
    else (url.path.map (fun seg => '/' :: seg)).flatten
  url.scheme ++ [':'] ++ hostPart ++ pathPart ++
    (match url.query with
     | some q => '?' :: q
     | none => []) ++
    (match url.fragment with
     | some f => if excludeFragmentFlag then [] else '#' :: f
     | none => [])

/-- `isSingleDotPathSegment(str)`. -/
def isSingleDotPathSegment (s : Str) : Bool :=
  s = ".".data || lowerStr s = "%2e".data

/-- `isDoubleDotPathSegment(str)`. -/
def isDoubleDotPathSegment (s : Str) : Bool :=
  lowerStr s = "..".data || lowerStr s = ".%2e".data ||
  lowerStr s = "%2e.".data || lowerStr s = "%2e%2e".data

/-- The character at UTF-16-ish index `i` satisfies `p` (false past the
end, matching `str[i] === c` which is false for `undefined`). -/
def atIs (s : Str) (i : Nat) (p : Char → Bool) : Bool :=
  match s.get? i with
  | some c => p c
  | none => false

/-- `isNormalizedWindowsDriveLetter(str)`.  The source tests
`str.length >= 2` (not an exact length), then `str[0]` against ASCII
alpha and `str[1] === ':'`. -/
def isNormalizedWindowsDriveLetter (s : Str) : Bool :=
  jsLength s ≥ 2 && atIs s 0 isAsciiAlphaChar && atIs s 1 (fun c => c = ':')

/-- `isWindowsDriveLetter(str)`: `str.length >= 2`, `str[0]` ASCII alpha,
`str[1]` either `:` or `|`. -/
def isWindowsDriveLetter (s : Str) : Bool :=
  jsLength s ≥ 2 && atIs s 0 isAsciiAlphaChar &&
    atIs s 1 (fun c => c = ':' || c = '|')

/-- `startsWithAWindowsDriveLetter(str)`. -/
def startsWithAWindowsDriveLetter (s : Str) : Bool :=
  jsLength s ≥ 2 && isWindowsDriveLetter s &&
    (jsLength s = 2 ||
      atIs s 2 (fun c => c = '/' || c = '\\' || c = '?' || c = '#'))

/-- `shorten(url)`. -/
def shorten (url : URLRec) : URLRec :=
  if url.path.length = 0 then url
  else if url.scheme = "file".data && url.path.length = 1 &&
      isNormalizedWindowsDriveLetter (url.path.headD []) then url
  else { url with path := url.path.dropLast }

/-- The split-on-`0x26` phase of `urlEncodedParser`: every `&` flushes the
current chunk (even when empty); the final chunk is kept only when
non-empty. -/
def splitAmpAux : Bytes → Bytes → List Bytes
  | [], cur => if cur.isEmpty then [] else [cur]
  | b :: bs, cur =>
    if b = 0x26 then cur :: splitAmpAux bs []
    else splitAmpAux bs (cur ++ [b])

def splitAmp (input : Bytes) : List Bytes := splitAmpAux input []

/-- Step 3.4 of `urlEncodedParser`: replace `0x2B (+)` with `0x20 (SP)`. -/
def plusToSpace (bs : Bytes) : Bytes :=
  bs.map (fun b => if b = 0x2B then 0x20 else b)

/-- `urlEncodedParser(input)`.  Note that step 3.5 of the source applies
`utf8Decode` directly to the split halves: despite its own comment
("the percent decoding of name and value"), the code never
percent-decodes them. -/
def urlEncodedParser (input : Bytes) : List (Str × Str) :=
  (splitAmp input).filterMap fun bytes =>
    if bytes.isEmpty then none
    else
      let nv : Bytes × Bytes :=
        match bytes.findIdx? (fun b => b = 0x3D) with
        | some ix => (bytes.take ix, bytes.drop (ix + 1))
        | none => (bytes, [])
      some (utf8Decode (plusToSpace nv.1), utf8Decode (plusToSpace nv.2))

/-- `urlEncodedByteSerializer(input)`. -/
def urlEncodedByteSerializer (input : Bytes) : Str :=
  (input.map fun byte =>
    if byte = 0x20 then ['+']
    else if byte = 0x2A || byte = 0x2D || byte = 0x2E ||
        (0x30 ≤ byte && byte ≤ 0x39) || (0x41 ≤ byte && byte ≤ 0x5A) ||
        byte = 0x5F || (0x61 ≤ byte && byte ≤ 0x7A) then [Char.ofNat byte]
    else percentEncode byte).flatten

/-- `urlEncodedSerializer(tuples, encodingOverride)`; `none` models the
`throw` taken when the resolved output encoding is not UTF-8. -/
def urlEncodedSerializer (tuples : List (Str × Str))
    (encodingOverride : Option Str) : Option Str :=
  let encoding : Str :=
    match encodingOverride with
    | none => "UTF-8".data
    | some e =>
      if e = "replacement".data || e = "UTF-16BE".data || e = "UTF-16LE".data
      then "UTF-8".data else e
  if upperStr encoding ≠ "UTF-8".data then none
  else
    some (tuples.foldl
      (fun output tuple =>
        let name := urlEncodedByteSerializer (utf8Encode tuple.1)
        let value := urlEncodedByteSerializer (utf8Encode tuple.2)
        (if output ≠ [] then output ++ ['&'] else output) ++
          name ++ ['='] ++ value)
      [])

/-- List-form `startsWith`. -/
def strStartsWith (s p : Str) : Bool := s.take p.length = p

/-- `iPv4NumberParser(input)` (the `validationErrorFlag` only feeds the
validation-error sink and is dropped). -/
def iPv4NumberParser (input : Str) : Option Nat :=
  let pr : Str × Nat :=
    if strStartsWith input "0x".data || strStartsWith input "0X".data then
      (input.drop 2, 16)
    else if jsLength input ≥ 2 && atIs input 0 (fun c => c = '0') then
      (input.drop 1, 8)
    else (input, 10)
  if pr.1 = [] then some 0
  else
    let okDigit : Char → Bool :=
      match pr.2 with
      | 16 => isAsciiHexChar
      | 8 => fun c => '0' ≤ c && c ≤ '7'
      | _ => isAsciiDigitChar
    if !pr.1.all okDigit then none
    else some (pr.1.foldl (fun a c => a * pr.2 + hexCharVal c) 0)

/-- `iPv4Parser(input)`: `Sum.inl` is the "return the original input, this
is a domain" outcome, `Sum.inr` an IPv4 address, `none` failure. -/
def iPv4Parser (input : Str) : Option (Str ⊕ Nat) :=
  let parts0 := input.splitOn '.'
  let parts :=
    if parts0.getLast? = some [] then
      if parts0.length > 1 then parts0.dropLast else parts0
    else parts0
  if parts.length > 4 then some (Sum.inl input)
  else
    match parts.mapM (fun part =>
        if part = [] then none else iPv4NumberParser part) with
    | none => some (Sum.inl input)
    | some numbers =>
      if numbers.dropLast.any (fun item => item > 255) then none
      else if numbers.getLast?.getD 0 ≥ 256 ^ (5 - numbers.length) then none
      else
        some (Sum.inr
          ((numbers.dropLast.foldl
            (fun (p : Nat × Nat) n => (p.1 + n * 256 ^ (3 - p.2), p.2 + 1))
            (numbers.getLast?.getD 0, 0)).1))

/-- The inner hex scan of `iPv6Parser` step 6.4: consume up to four ASCII
hex digits, returning the accumulated value, the number of digits
consumed, and the rest of the input. -/
def hex4Aux : Nat → Nat → Nat → Str → Nat × Nat × Str
  | 0, v, len, rest => (v, len, rest)
  | fuel + 1, v, len, rest =>
    match rest with
    | c :: rs =>
      if isAsciiHexChar c then hex4Aux fuel (v * 16 + hexCharVal c) (len + 1) rs
      else (v, len, c :: rs)
    | [] => (v, len, [])

def hex4 (rest : Str) : Nat × Nat × Str := hex4Aux 4 0 0 rest

theorem hex4Aux_length_le (fuel v len : Nat) (r : Str) :
    (hex4Aux fuel v len r).2.2.length ≤ r.length := by
  induction fuel generalizing v len r with
  | zero => simp [hex4Aux]
  | succ f ih =>
    cases r with
    | nil => simp [hex4Aux]
    | cons c rs =>
      simp only [hex4Aux]
      split
      · exact le_trans (ih _ _ _) (by simp)
      · simp

theorem hex4_length_le (r : Str) : (hex4 r).2.2.length ≤ r.length :=
  hex4Aux_length_le 4 0 0 r

/-- The digit scan of `iPv6Parser` step 6.5.5.4 (the embedded IPv4 tail):
accumulate a decimal number, failing on a digit after a leading zero or a
value above 255. -/
def quadDigits : Str → Option Nat → Option (Option Nat × Str)
  | [], acc => some (acc, [])
  | c :: rs, acc =>
    if isAsciiDigitChar c then
      let number := c.toNat - '0'.toNat
      match acc with
      | none => if number > 255 then none else quadDigits rs (some number)
      | some 0 => none
      | some p =>
        let piece := p * 10 + number
        if piece > 255 then none else quadDigits rs (some piece)
    else some (acc, c :: rs)

/-- Steps 6.5.4-6.5.6 of `iPv6Parser`: the embedded dotted-quad loop.
Returns the updated address and piece index.  Terminates because
`numbersSeen` grows on every iteration and is capped at 4. -/
def quadLoop (q : Str) (pieceIndex : Nat) (address : List Nat)
    (numbersSeen : Nat) : Option (List Nat × Nat) :=
  match q with
  | [] => if numbersSeen = 4 then some (address, pieceIndex) else none
  | c :: rs =>
    if hseen : 0 < numbersSeen then
      if hdot : c = '.' ∧ numbersSeen < 4 then
        match rs with
        | [] => none
        | d :: _ =>
          if !isAsciiDigitChar d then none
          else
            match quadDigits rs none with
            | none => none
            | some (none, _) => none
            | some (some piece, q') =>
              let address' :=
                address.set pieceIndex (address.getD pieceIndex 0 * 0x100 + piece)
              let numbersSeen' := numbersSeen + 1
              let pieceIndex' :=
                if numbersSeen' = 2 || numbersSeen' = 4 then pieceIndex + 1
                else pieceIndex
              quadLoop q' pieceIndex' address' numbersSeen'
      else none
    else
      if !isAsciiDigitChar c then none
      else
        match quadDigits (c :: rs) none with
        | none => none
        | some (none, _) => none
        | some (some piece, q') =>
          let address' :=
            address.set pieceIndex (address.getD pieceIndex 0 * 0x100 + piece)
          let numbersSeen' := numbersSeen + 1
          let pieceIndex' :=
            if numbersSeen' = 2 || numbersSeen' = 4 then pieceIndex + 1
            else pieceIndex
          quadLoop q' pieceIndex' address' numbersSeen'
termination_by 4 - numbersSeen
decreasing_by all_goals omega

/-- `[address[p], address[q]] = [address[q], address[p]]`. -/
def listSwap (l : List Nat) (i j : Nat) : List Nat :=
  (l.set i (l.getD j 0)).set j (l.getD i 0)

/-- The compress-swap loop of `iPv6Parser` step 7.3. -/
def swapLoop (address : List Nat) (pieceIdx comp swaps : Nat) : List Nat :=
  if h : pieceIdx ≠ 0 ∧ 0 < swaps then
    swapLoop (listSwap address pieceIdx (comp + swaps - 1)) (pieceIdx - 1)
      comp (swaps - 1)
  else address
termination_by swaps
decreasing_by omega

/-- The main `while` loop of `iPv6Parser` (step 6).  Returns the address,
piece index and compress pointer at loop exit. -/
def iPv6Loop (rest : Str) (pieceIndex : Nat) (compress : Option Nat)
    (address : List Nat) : Option (List Nat × Nat × Option Nat) :=
  match rest with
  | [] => some (address, pieceIndex, compress)
  | c :: rs =>
    if pieceIndex = 8 then none
    else if c = ':' then
      if compress ≠ none then none
      else iPv6Loop rs (pieceIndex + 1) (some (pieceIndex + 1)) address
    else
      match hh : hex4 (c :: rs) with
      | (value, len, rest') =>
        match hr : rest' with
        | '.' :: _ =>
          if len = 0 then none
          else if pieceIndex > 6 then none
          else
            match quadLoop (c :: rs) pieceIndex address 0 with
            | none => none
            | some (address', pieceIndex') =>
              some (address', pieceIndex', compress)
        | ':' :: rs2 =>
          match rs2 with
          | [] => none
          | _ =>
            iPv6Loop rs2 (pieceIndex + 1) compress (address.set pieceIndex value)
        | [] => some (address.set pieceIndex value, pieceIndex + 1, compress)
        | _ => none
termination_by rest.length
decreasing_by
  · simp
  · have h1 := hex4_length_le (c :: rs)
    simp_all
    omega

/-- `iPv6Parser(input)`. -/
def iPv6Parser (input : Str) : Option (List Nat) :=
  let address : List Nat := [0, 0, 0, 0, 0, 0, 0, 0]
  let start : Option (Str × Nat × Option Nat) :=
    match input with
    | ':' :: ':' :: rest0 => some (rest0, 1, some 1)
    | ':' :: _ => none
    | _ => some (input, 0, none)
  match start with
  | none => none
  | some (rest0, pieceIndex0, compress0) =>
    match iPv6Loop rest0 pieceIndex0 compress0 address with
    | none => none
    | some (address1, pieceIndex1, compress1) =>
      match compress1 with
      | some comp => some (swapLoop address1 7 comp (pieceIndex1 - comp))
      | none => if pieceIndex1 ≠ 8 then none else some address1

/-- The local forbidden-character class of `opaqueHostParser`
(`/[\x00\t\f\r #/:?@\[\\\]]/`, a fresh non-global regex: `%` is excluded,
and like `_forbiddenHostCodePoint` it contains U+000C FF where the spec
lists U+000A LF). -/
def opaqueForbiddenChar (c : Char) : Bool :=
  c = Char.ofNat 0 || c = '\t' || c = Char.ofNat 0x0C || c = '\r' ||
  c = ' ' || c = '#' || c = '/' || c = ':' || c = '?' || c = '@' ||
  c = '[' || c = '\\' || c = ']'

/-- `opaqueHostParser(input)`. -/
def opaqueHostParser (input : Str) : Option Str :=
  if input.any opaqueForbiddenChar then none
  else some ((input.map (fun c => utf8PercentEncode c c0ControlPercentEncodeSet)).flatten)

/-- The character class of the instance-level regex
`_forbiddenHostCodePoint = /[\0\t\f\r #%/:?@\[\\\]]/g`.  Its own comment
lists `U+000A LF`, but the class written in the source contains `\f`
(U+000C FF) and no LF. -/
def isForbiddenHostChar (c : Char) : Bool :=
  c = Char.ofNat 0 || c = '\t' || c = Char.ofNat 0x0C || c = '\r' ||
  c = ' ' || c = '#' || c = '%' || c = '/' || c = ':' || c = '?' ||
  c = '@' || c = '[' || c = '\\' || c = ']'

/-- `regex.test(s)` for a global (`g`-flag) single-character-class regex:
the search starts at the regex object's persistent `lastIndex`; a match
sets `lastIndex` past the match, a miss resets it to 0.  (Indices are in
code points; all strings reaching this regex in the claims are in the
Basic Multilingual Plane, where code-point and UTF-16 indices agree.) -/
def regexTestG (p : Char → Bool) (s : Str) (lastIndex : Nat) : Bool × Nat :=
  match (List.range s.length).find? (fun i => lastIndex ≤ i && atIs s i p) with
  | some i => (true, i + 1)
  | none => (false, 0)

/-- `hostParser(input, isNotSpecial)`.  `d2a` is the external
`domainToASCII` collaborator (the uts46 package, outside the repository);
`lastIndex` is the persistent `lastIndex` of the instance's global
`_forbiddenHostCodePoint` regex, returned updated. -/
def hostParser (d2a : Str → Option Str) (lastIndex : Nat) (input : Str)
    (isNotSpecial : Bool) : Option Host × Nat :=
  if input.head? = some '[' then
    if input.getLast? ≠ some ']' then (none, lastIndex)
    else ((iPv6Parser ((input.drop 1).dropLast)).map Host.ipv6, lastIndex)
  else if isNotSpecial then ((opaqueHostParser input).map Host.str, lastIndex)
  else
    let domain := utf8Decode (stringPercentDecode input)
    match d2a domain with
    | none => (none, lastIndex)
    | some asciiDomain =>
      let t := regexTestG isForbiddenHostChar asciiDomain lastIndex
      if t.1 then (none, t.2)
      else
        match iPv4Parser asciiDomain with
        | none => (none, t.2)
        | some (Sum.inr n) => (some (Host.ipv4 n), t.2)
        | some (Sum.inl _) => (some (Host.str asciiDomain), t.2)

/-- The parser states (the `ParserState` enum of `interfaces.ts`;
`SchemeStart` is the first member and has numeric value 0, which is falsy
in JavaScript). -/
inductive PState where
  | SchemeStart
  | Scheme
  | NoScheme
  | SpecialRelativeOrAuthority
  | PathOrAuthority
  | Relative
  | RelativeSlash
  | SpecialAuthoritySlashes
  | SpecialAuthorityIgnoreSlashes
  | Authority
  | Host
  | Hostname
  | Port
  | File
  | FileSlash
  | FileHost
  | PathStart
  | Path
  | CannotBeABaseURLPath
  | Query
  | Fragment
deriving DecidableEq, Repr

/-- The parameters of one `basicURLParser` run that never change during
the run: the cleaned input, the base record, the state override, and the
external `domain_to_ascii` collaborator. -/
structure PEnv where
  input : Str
  base : Option URLRec
  ov : Option PState
  d2a : Str → Option Str

/-- The mutable state of the `basicURLParser` loop: the record being
built (mutated in place in the source), the buffer and flags of step
8-10, the encoding (reassigned in the query state), the current state and
pointer, and the persistent `lastIndex` of the algorithm instance's
global `_forbiddenHostCodePoint` regex. -/
structure MState where
  url : URLRec
  buffer : Str
  atFlag : Bool
  arrayFlag : Bool
  passwordTokenSeenFlag : Bool
  encoding : Str
  state : PState
  pointer : Int
  fhcpLastIndex : Nat
deriving DecidableEq, Repr

/-- How one `basicURLParser` run ends: `return url` (success),
`return null` (failure), or a JavaScript exception escaping the parser.
The machine state is carried so that the in-place mutations performed on
the caller's record before a failure remain observable. -/
inductive Outcome where
  | success (st : MState)
  | failure (st : MState)
  | thrown (st : MState)
deriving DecidableEq, Repr

/-- The result of one execution of the `switch` body: fall through to the
loop footer (EOF check, then `pointer++`), `continue` directly (the
scheme-state restart), or leave the loop with an outcome. -/
inductive StepRes where
  | next (st : MState)
  | jump (st : MState)
  | halt (o : Outcome)
deriving DecidableEq, Repr

/-- The truthiness of `stateOverride` (used bare in the port state):
falsy when absent or when it is `SchemeStart` (numeric value 0). -/
def ovTruthy (env : PEnv) : Bool :=
  match env.ov with
  | some s => s ≠ PState.SchemeStart
  | none => false

/-- `baseURL !== null && baseURL.scheme === s`. -/
def baseSchemeIs (base : Option URLRec) (s : Str) : Bool :=
  match base with
  | some b => b.scheme = s
  | none => false

/-- `parseInt(buffer, 10)` on an all-digit buffer (the port state). -/
def digitsToNat (s : Str) : Nat :=
  s.foldl (fun a c => a * 10 + (c.toNat - '0'.toNat)) 0

/-- `url.query += s` / `url.fragment += s` / `url.path[0] += s`: JavaScript
renders a null field as the string `"null"` (and a missing `path[0]` as
`"undefined"`) before concatenating. -/
def appendOptStr (q : Option Str) (s : Str) : Option Str :=
  some (q.getD "null".data ++ s)

def appendPath0 (path : List Str) (s : Str) : List Str :=
  match path with
  | [] => ["undefined".data ++ s]
  | p0 :: rest => (p0 ++ s) :: rest

/-- `utf8Encode(walker.c())` in the query state (guarded by `c !== EOF`;
`undefined` would coerce to the string `"undefined"`). -/
def utf8EncodeJ : JChar → Bytes
  | .chr c => utf8EncodeChar c
  | .eof => []
  | .undef => utf8Encode "undefined".data

/-- `infraByteSequence.isomorphicDecode`. -/
def isomorphicDecode (bs : Bytes) : Str := bs.map Char.ofNat

/-- Step 1.6 of the path state: while the path has more than one segment
and the first is empty, remove the first. -/
def stripLeadingEmpties : List Str → List Str
  | [] :: r2 :: rest => stripLeadingEmpties (r2 :: rest)
  | l => l

/-- Scheme start state. -/
def stepSchemeStart (env : PEnv) (st : MState) : StepRes :=
  let c := charAt env.input st.pointer
  if testASCIIAlpha c then
    .next { st with buffer := appendLower st.buffer c, state := .Scheme }
  else if env.ov = none then
    .next { st with state := .NoScheme, pointer := st.pointer - 1 }
  else .halt (.failure st)

/-- Scheme state. -/
def stepScheme (env : PEnv) (st : MState) : StepRes :=
  let c := charAt env.input st.pointer
  if testASCIIAlphanumeric c || c = .chr '+' || c = .chr '-' || c = .chr '.' then
    .next { st with buffer := appendLower st.buffer c }
  else if c = .chr ':' then
    if env.ov.isSome &&
        ((isSpecialScheme st.url.scheme && !isSpecialScheme st.buffer) ||
          (!isSpecialScheme st.url.scheme && isSpecialScheme st.buffer) ||
          ((includesCredentials st.url || st.url.port ≠ none) &&
            st.buffer = "file".data) ||
          (st.url.scheme = "file".data &&
            (st.url.host = some (Host.str []) || st.url.host = none))) then
      .halt (.success st)
    else
      let url1 := { st.url with scheme := st.buffer }
      if env.ov.isSome then
        let url2 :=
          if url1.port = defaultPort url1.scheme then { url1 with port := none }
          else url1
        .halt (.success { st with url := url2 })
      else
        let st2 := { st with url := url1, buffer := [] }
        if url1.scheme = "file".data then .next { st2 with state := .File }
        else if isSpecial url1 && baseSchemeIs env.base url1.scheme then
          .next { st2 with state := .SpecialRelativeOrAuthority }
        else if isSpecial url1 then
          .next { st2 with state := .SpecialAuthoritySlashes }
        else if strStartsWith (remaining env.input st.pointer) "/".data then
          .next { st2 with state := .PathOrAuthority, pointer := st.pointer + 1 }
        else
          .next { st2 with
            url := { url1 with
              cannotBeABaseURLFlag := true,
              path := url1.path ++ [[]] },
            state := .CannotBeABaseURLPath }
  else if env.ov = none then
    .jump { st with buffer := [], state := .NoScheme, pointer := 0 }
  else .halt (.failure st)

/-- No scheme state. -/
def stepNoScheme (env : PEnv) (st : MState) : StepRes :=
  let c := charAt env.input st.pointer
  match env.base with
  | none => .halt (.failure st)
  | some b =>
    if b.cannotBeABaseURLFlag && c ≠ .chr '#' then .halt (.failure st)
    else if b.cannotBeABaseURLFlag && c = .chr '#' then
      .next { st with
        url := { st.url with
          scheme := b.scheme,
          path := b.path,
          query := b.query,
          fragment := some [],
          cannotBeABaseURLFlag := true },
        state := .Fragment }
    else if b.scheme ≠ "file".data then
      .next { st with state := .Relative, pointer := st.pointer - 1 }
    else
      .next { st with state := .File, pointer := st.pointer - 1 }

/-- Special relative or authority state. -/
def stepSpecialRelativeOrAuthority (env : PEnv) (st : MState) : StepRes :=
  let c := charAt env.input st.pointer
  if c = .chr '/' && strStartsWith (remaining env.input st.pointer) "/".data then
    .next { st with
      state := .SpecialAuthorityIgnoreSlashes,
      pointer := st.pointer + 1 }
  else
    .next { st with state := .Relative, pointer := st.pointer - 1 }

/-- Path or authority state. -/
def stepPathOrAuthority (env : PEnv) (st : MState) : StepRes :=
  let c := charAt env.input st.pointer
  if c = .chr '/' then .next { st with state := .Authority }
  else .next { st with state := .Path, pointer := st.pointer - 1 }

/-- Relative state.  The null-base guard throws. -/
def stepRelative (env : PEnv) (st : MState) : StepRes :=
  match env.base with
  | none => .halt (.thrown st)
  | some b =>
    let c := charAt env.input st.pointer
    let url1 := { st.url with scheme := b.scheme }
    if c = .eof then
      .next { st with
        url := { url1 with
          username := b.username,
          password := b.password,
          host := b.host,
          port := b.port,
          path := b.path,
          query := b.query } }
    else if c = .chr '/' then
      .next { st with url := url1, state := .RelativeSlash }
    else if c = .chr '?' then
      .next { st with
        url := { url1 with
          username := b.username,
          password := b.password,
          host := b.host,
          port := b.port,
          path := b.path,
          query := some [] },
        state := .Query }
    else if c = .chr '#' then
      .next { st with
        url := { url1 with
          username := b.username,
          password := b.password,
          host := b.host,
          port := b.port,
          path := b.path,
          query := b.query,
          fragment := some [] },
        state := .Fragment }
    else if isSpecial url1 && c = .chr '\\' then
      .next { st with url := url1, state := .RelativeSlash }
    else
      .next { st with
        url := { url1 with
          username := b.username,
          password := b.password,
          host := b.host,
          port := b.port,
          path := b.path.dropLast },
        state := .Path, pointer := st.pointer - 1 }

/-- Relative slash state.  The null-base guard throws. -/
def stepRelativeSlash (env : PEnv) (st : MState) : StepRes :=
  let c := charAt env.input st.pointer
  if isSpecial st.url && (c = .chr '/' || c = .chr '\\') then
    .next { st with state := .SpecialAuthorityIgnoreSlashes }
  else if c = .chr '/' then .next { st with state := .Authority }
  else
    match env.base with
    | none => .halt (.thrown st)
    | some b =>
      .next { st with
        url := { st.url with
          username := b.username,
          password := b.password,
          host := b.host,
          port := b.port },
        state := .Path, pointer := st.pointer - 1 }

/-- Special authority slashes state. -/
def stepSpecialAuthoritySlashes (env : PEnv) (st : MState) : StepRes :=
  let c := charAt env.input st.pointer
  if c = .chr '/' && strStartsWith (remaining env.input st.pointer) "/".data then
    .next { st with
      state := .SpecialAuthorityIgnoreSlashes,
      pointer := st.pointer + 1 }
  else
    .next { st with
      state := .SpecialAuthorityIgnoreSlashes,
      pointer := st.pointer - 1 }

/-- Special authority ignore slashes state. -/
def stepSpecialAuthorityIgnoreSlashes (env : PEnv) (st : MState) : StepRes :=
  let c := charAt env.input st.pointer
  if c ≠ .chr '/' && c ≠ .chr '\\' then
    .next { st with state := .Authority, pointer := st.pointer - 1 }
  else .next st

/-- One iteration of the authority state's `@`-branch loop over the
buffered code points: the first unescaped `:` starts the password, every
other code point is percent-encoded into the username or password. -/
def userInfoFoldStep (acc : URLRec × Bool) (cp : Char) : URLRec × Bool :=
  if cp = ':' && !acc.2 then (acc.1, true)
  else
    let enc := utf8PercentEncode cp userInfoPercentEncodeSet
    if acc.2 then
      ({ acc.1 with password := acc.1.password ++ enc }, acc.2)
    else ({ acc.1 with username := acc.1.username ++ enc }, acc.2)

/-- Authority state. -/
def stepAuthority (env : PEnv) (st : MState) : StepRes :=
  let c := charAt env.input st.pointer
  if c = .chr '@' then
    let buffer1 := if st.atFlag then "%40".data ++ st.buffer else st.buffer
    let folded := buffer1.foldl userInfoFoldStep
      (st.url, st.passwordTokenSeenFlag)
    .next { st with
      url := folded.1,
      passwordTokenSeenFlag := folded.2,
      atFlag := true,
      buffer := [] }
  else if c = .eof || c = .chr '/' || c = .chr '?' || c = .chr '#' ||
      (isSpecial st.url && c = .chr '\\') then
    if st.atFlag && st.buffer = [] then .halt (.failure st)
    else
      .next { st with
        pointer := st.pointer - (jsLength st.buffer + 1),
        buffer := [],
        state := .Host }
  else .next { st with buffer := appendJChar st.buffer c }

/-- Host and hostname states (one shared `case` in the source). -/
def stepHostLike (env : PEnv) (st : MState) : StepRes :=
  let c := charAt env.input st.pointer
  if env.ov.isSome && st.url.scheme = "file".data then
    .next { st with pointer := st.pointer - 1, state := .FileHost }
  else if c = .chr ':' && !st.arrayFlag then
    if st.buffer = [] then .halt (.failure st)
    else
      let hp := hostParser env.d2a st.fhcpLastIndex st.buffer (!isSpecial st.url)
      let st1 := { st with fhcpLastIndex := hp.2 }
      match hp.1 with
      | none => .halt (.failure st1)
      | some host =>
        let st2 := { st1 with
          url := { st1.url with host := some host },
          buffer := [],
          state := .Port }
        if env.ov = some PState.Hostname then .halt (.success st2)
        else .next st2
  else if c = .eof || c = .chr '/' || c = .chr '?' || c = .chr '#' ||
      (isSpecial st.url && c = .chr '\\') then
    let st0 := { st with pointer := st.pointer - 1 }
    if isSpecial st0.url && st0.buffer = [] then .halt (.failure st0)
    else if env.ov.isSome && st0.buffer = [] &&
        (includesCredentials st0.url || st0.url.port ≠ none) then
      .halt (.success st0)
    else
      let hp := hostParser env.d2a st0.fhcpLastIndex st0.buffer (!isSpecial st0.url)
      let st1 := { st0 with fhcpLastIndex := hp.2 }
      match hp.1 with
      | none => .halt (.failure st1)
      | some host =>
        let st2 := { st1 with
          url := { st1.url with host := some host },
          buffer := [],
          state := .PathStart }
        if env.ov.isSome then .halt (.success st2) else .next st2
  else
    let st1 := if c = .chr '[' then { st with arrayFlag := true } else st
    let st2 := if c = .chr ']' then { st1 with arrayFlag := false } else st1
    .next { st2 with buffer := appendJChar st2.buffer c }

/-- Port state.  Note the bare-truthiness test `|| stateOverride` in the
terminator condition: false for the `SchemeStart` override (enum value
0). -/
def stepPort (env : PEnv) (st : MState) : StepRes :=
  let c := charAt env.input st.pointer
  if testASCIIDigit c then .next { st with buffer := appendJChar st.buffer c }
  else if c = .eof || c = .chr '/' || c = .chr '?' || c = .chr '#' ||
      (isSpecial st.url && c = .chr '\\') || ovTruthy env then
    if st.buffer ≠ [] then
      let port := digitsToNat st.buffer
      if port > 65535 then .halt (.failure st)
      else
        let url1 := { st.url with
          port :=
            if some port = defaultPort st.url.scheme then none
            else some port }
        let st1 := { st with url := url1, buffer := [] }
        if env.ov.isSome then .halt (.success st1)
        else .next { st1 with state := .PathStart, pointer := st1.pointer - 1 }
    else if env.ov.isSome then .halt (.success st)
    else .next { st with state := .PathStart, pointer := st.pointer - 1 }
  else .halt (.failure st)

/-- File state. -/
def stepFile (env : PEnv) (st : MState) : StepRes :=
  let c := charAt env.input st.pointer
  let st := { st with url := { st.url with scheme := "file".data } }
  if c = .chr '/' || c = .chr '\\' then .next { st with state := .FileSlash }
  else if baseSchemeIs env.base "file".data then
    match env.base with
    | none => .next { st with state := .Path, pointer := st.pointer - 1 }
    | some b =>
      if c = .eof then
        .next { st with
          url := { st.url with
            host := b.host,
            path := b.path,
            query := b.query } }
      else if c = .chr '?' then
        .next { st with
          url := { st.url with
            host := b.host,
            path := b.path,
            query := some [] },
          state := .Query }
      else if c = .chr '#' then
        .next { st with
          url := { st.url with
            host := b.host,
            path := b.path,
            query := b.query,
            fragment := some [] },
          state := .Fragment }
      else
        let st1 :=
          if !startsWithAWindowsDriveLetter (substringFrom env.input st.pointer)
          then { st with
            url := shorten { st.url with host := b.host, path := b.path } }
          else st
        .next { st1 with state := .Path, pointer := st1.pointer - 1 }
  else .next { st with state := .Path, pointer := st.pointer - 1 }

/-- File slash state.  When base is a file URL whose path is empty, the
source reads `baseURL.path[0]` (which is `undefined`) and passes it to
`isNormalizedWindowsDriveLetter`, whose `str.length` access throws a
`TypeError`. -/
def stepFileSlash (env : PEnv) (st : MState) : StepRes :=
  let c := charAt env.input st.pointer
  if c = .chr '/' || c = .chr '\\' then .next { st with state := .FileHost }
  else
    match env.base with
    | some b =>
      if b.scheme = "file".data &&
          !startsWithAWindowsDriveLetter (substringFrom env.input st.pointer) then
        match b.path with
        | [] => .halt (.thrown st)
        | p0 :: _ =>
          if isNormalizedWindowsDriveLetter p0 then
            .next { st with
            url := { st.url with path := st.url.path ++ [p0] },
            state := .Path,
            pointer := st.pointer - 1 }
          else
            .next { st with
              url := { st.url with host := b.host },
              state := .Path,
              pointer := st.pointer - 1 }
      else .next { st with state := .Path, pointer := st.pointer - 1 }
    | none => .next { st with state := .Path, pointer := st.pointer - 1 }

/-- File host state. -/
def stepFileHost (env : PEnv) (st : MState) : StepRes :=
  let c := charAt env.input st.pointer
  if c = .eof || c = .chr '/' || c = .chr '\\' || c = .chr '?' ||
      c = .chr '#' then
    let st0 := { st with pointer := st.pointer - 1 }
    if env.ov = none && isWindowsDriveLetter st0.buffer then
      .next { st0 with state := .Path }
    else if st0.buffer = [] then
      let st1 := { st0 with url := { st0.url with host := some (Host.str []) } }
      if env.ov.isSome then .halt (.success st1)
      else .next { st1 with state := .PathStart }
    else
      let hp := hostParser env.d2a st0.fhcpLastIndex st0.buffer (!isSpecial st0.url)
      let st1 := { st0 with fhcpLastIndex := hp.2 }
      match hp.1 with
      | none => .halt (.failure st1)
      | some host0 =>
        let host := if host0 = Host.str "localhost".data then Host.str []
                    else host0
        let st2 := { st1 with url := { st1.url with host := some host } }
        if env.ov.isSome then .halt (.success st2)
        else .next { st2 with buffer := [], state := .PathStart }
  else .next { st with buffer := appendJChar st.buffer c }

/-- Path start state. -/
def stepPathStart (env : PEnv) (st : MState) : StepRes :=
  let c := charAt env.input st.pointer
  if isSpecial st.url then
    let st1 := { st with state := .Path }
    if c ≠ .chr '/' && c ≠ .chr '\\' then
      .next { st1 with pointer := st1.pointer - 1 }
    else .next st1
  else if env.ov = none && c = .chr '?' then
    .next { st with url := { st.url with query := some [] }, state := .Query }
  else if env.ov = none && c = .chr '#' then
    .next { st with
      url := { st.url with fragment := some [] },
      state := .Fragment }
  else if c ≠ .eof then
    let st1 := { st with state := .Path }
    if c ≠ .chr '/' then .next { st1 with pointer := st1.pointer - 1 }
    else .next st1
  else .next st

/-- Steps 1.2-1.4 of the path state: dot-segment handling and the buffer
push.  Step 1.4.1.2 concatenates an array slice with a string
(`bufferCodePoints.slice(0, 1) + ':' + bufferCodePoints.slice(2)`), which
stringifies the arrays: their elements are joined with commas, so for a
buffer longer than three code points the replacement inserts commas. -/
def pathSegMid (st : MState) (c : JChar) : MState :=
  if isDoubleDotPathSegment st.buffer then
    let url1 := shorten st.url
    if c ≠ .chr '/' && !(isSpecial url1 && c = .chr '\\') then
      { st with url := { url1 with path := url1.path ++ [[]] } }
    else { st with url := url1 }
  else if isSingleDotPathSegment st.buffer && c ≠ .chr '/' &&
      !(isSpecial st.url && c = .chr '\\') then
    { st with url := { st.url with path := st.url.path ++ [[]] } }
  else if !isSingleDotPathSegment st.buffer then
    if st.url.scheme = "file".data && st.url.path = [] &&
        isWindowsDriveLetter st.buffer then
      let url1 :=
        if st.url.host ≠ none && st.url.host ≠ some (Host.str []) then
          { st.url with host := some (Host.str []) }
        else st.url
      let buffer1 :=
        st.buffer.take 1 ++ [':'] ++ List.intersperse ',' (st.buffer.drop 2)
      { st with url := { url1 with path := url1.path ++ [buffer1] } }
    else { st with url := { st.url with path := st.url.path ++ [st.buffer] } }
  else st

/-- Step 1.6 of the path state: for a file URL at a terminating code
point, strip the leading empty path segments. -/
def pathStrip (st : MState) (c : JChar) : MState :=
  if st.url.scheme = "file".data &&
      (c = .eof || c = .chr '?' || c = .chr '#') then
    { st with url := { st.url with path := stripLeadingEmpties st.url.path } }
  else st

/-- The terminator branch of the path state (steps 1.1-1.8), producing
the next machine state. -/
def stepPathTerm (st : MState) (c : JChar) : MState :=
  let stMid3 := pathStrip { pathSegMid st c with buffer := [] } c
  if c = .chr '?' then
    { stMid3 with url := { stMid3.url with query := some [] }, state := .Query }
  else if c = .chr '#' then
    { stMid3 with
      url := { stMid3.url with fragment := some [] },
      state := .Fragment }
  else stMid3

/-- Path state (never returns or fails: both branches continue). -/
def stepPath (env : PEnv) (st : MState) : StepRes :=
  let c := charAt env.input st.pointer
  if (c = .eof || c = .chr '/') || (isSpecial st.url && c = .chr '\\') ||
      (env.ov = none && (c = .chr '?' || c = .chr '#')) then
    .next (stepPathTerm st c)
  else
    .next { st with buffer := st.buffer ++ utf8PercentEncodeJ c pathPercentEncodeSet }

/-- Cannot-be-a-base-URL path state. -/
def stepCannotBeABaseURLPath (env : PEnv) (st : MState) : StepRes :=
  let c := charAt env.input st.pointer
  if c = .chr '?' then
    .next { st with url := { st.url with query := some [] }, state := .Query }
  else if c = .chr '#' then
    .next { st with
      url := { st.url with fragment := some [] },
      state := .Fragment }
  else if c ≠ .eof then
    .next { st with
      url := { st.url with
        path := appendPath0 st.url.path
          (utf8PercentEncodeJ c c0ControlPercentEncodeSet) } }
  else .next st

/-- Query state.  The non-UTF-8 encoding guard throws. -/
def stepQuery (env : PEnv) (st : MState) : StepRes :=
  let c := charAt env.input st.pointer
  let encoding1 :=
    if st.encoding ≠ "UTF-8".data &&
        (!isSpecial st.url || st.url.scheme = "ws".data ||
          st.url.scheme = "wss".data) then "UTF-8".data
    else st.encoding
  let st := { st with encoding := encoding1 }
  if env.ov = none && c = .chr '#' then
    .next { st with
      url := { st.url with fragment := some [] },
      state := .Fragment }
  else if c ≠ .eof then
    if upperStr st.encoding ≠ "UTF-8".data then .halt (.thrown st)
    else
      let bytes := utf8EncodeJ c
      if bytes.length ≥ 3 && bytes.head? = some 38 && bytes.get? 1 = some 35 &&
          bytes.getLast? = some 59 then
        let middle := (bytes.drop 2).dropLast
        .next { st with
          url := { st.url with
            query := appendOptStr st.url.query
              ("%26%23".data ++ isomorphicDecode middle ++ "%3B".data) } }
      else
        let appended := (bytes.map fun byte =>
          if byte < 0x21 || byte > 0x7E || byte = 0x22 || byte = 0x23 ||
              byte = 0x3C || byte = 0x3E ||
              (byte = 0x27 && isSpecial st.url) then percentEncode byte
          else [Char.ofNat byte]).flatten
        .next { st with
          url := { st.url with query := appendOptStr st.url.query appended } }
  else .next st

/-- Fragment state. -/
def stepFragment (env : PEnv) (st : MState) : StepRes :=
  let c := charAt env.input st.pointer
  if c = .eof then .next st
  else if c = .chr (Char.ofNat 0) then .next st
  else
    .next { st with
      url := { st.url with
        fragment := appendOptStr st.url.fragment
          (utf8PercentEncodeJ c fragmentPercentEncodeSet) } }

/-- One execution of the `switch` body of the `basicURLParser` loop. -/
def step (env : PEnv) (st : MState) : StepRes :=
  match st.state with
  | .SchemeStart => stepSchemeStart env st
  | .Scheme => stepScheme env st
  | .NoScheme => stepNoScheme env st
  | .SpecialRelativeOrAuthority => stepSpecialRelativeOrAuthority env st
  | .PathOrAuthority => stepPathOrAuthority env st
  | .Relative => stepRelative env st
  | .RelativeSlash => stepRelativeSlash env st
  | .SpecialAuthoritySlashes => stepSpecialAuthoritySlashes env st
  | .SpecialAuthorityIgnoreSlashes => stepSpecialAuthorityIgnoreSlashes env st
  | .Authority => stepAuthority env st
  | .Host => stepHostLike env st
  | .Hostname => stepHostLike env st
  | .Port => stepPort env st
  | .File => stepFile env st
  | .FileSlash => stepFileSlash env st
  | .FileHost => stepFileHost env st
  | .PathStart => stepPathStart env st
  | .Path => stepPath env st
  | .CannotBeABaseURLPath => stepCannotBeABaseURLPath env st
  | .Query => stepQuery env st
  | .Fragment => stepFragment env st

/-- The `while (true)` loop of `basicURLParser`: run the switch body;
on fall-through, stop successfully if the pointer is at EOF, otherwise
advance the pointer; `jump` models the scheme-state `continue`.  `none`
means the fuel ran out (the loop did not exit within `fuel` steps). -/
def runAux (env : PEnv) : Nat → MState → Option Outcome
  | 0, _ => none
  | fuel + 1, st =>
    match step env st with
    | .halt o => some o
    | .jump st' => runAux env fuel st'
    | .next st' =>
      if (env.input.length : Int) ≤ st'.pointer then some (.success st')
      else runAux env fuel { st' with pointer := st'.pointer + 1 }

/-- `[\u0000-\u001F ]` (leading/trailing C0 control or space). -/
def isC0OrSpace (c : Char) : Bool := c.toNat ≤ 0x20

/-- `[\u0009\u000A\u000D]` (ASCII tab or newline). -/
def isTabOrNewline (c : Char) : Bool := c = '\t' || c = '\n' || c = '\r'

/-- The input pre-pass of `basicURLParser` steps 1-3: strip leading and
trailing C0-control-or-space only when no record was supplied, then
remove every tab and newline. -/
def cleanInput (input : Str) (urlGiven : Bool) : Str :=
  let s :=
    if urlGiven then input
    else ((input.dropWhile isC0OrSpace).reverse.dropWhile isC0OrSpace).reverse
  s.filter (fun c => !isTabOrNewline c)

/-- Step 7: getting an output encoding from the encoding override. -/
def getOutputEncoding (encodingOverride : Option Str) : Str :=
  match encodingOverride with
  | none => "UTF-8".data
  | some e =>
    if e = "replacement".data || e = "UTF-16BE".data || e = "UTF-16LE".data
    then "UTF-8".data else e

/-- `basicURLParser(input, baseURL, encodingOverride, url, stateOverride)`.
`d2a` is the external `domain_to_ascii` collaborator, `fhcpLastIndex` the
persistent `lastIndex` of the instance's global forbidden-host regex, and
`fuel` bounds the number of loop iterations (`none` = not terminated
within `fuel`). -/
def basicURLParser (input : Str) (baseURL : Option URLRec)
    (encodingOverride : Option Str) (url? : Option URLRec)
    (ov : Option PState) (d2a : Str → Option Str) (fhcpLastIndex : Nat)
    (fuel : Nat) : Option Outcome :=
  let env : PEnv :=
    { input := cleanInput input url?.isSome, base := baseURL, ov := ov,
      d2a := d2a }
  runAux env fuel
    { url := url?.getD newURL, buffer := [], atFlag := false,
      arrayFlag := false, passwordTokenSeenFlag := false,
      encoding := getOutputEncoding encodingOverride,
      state := ov.getD .SchemeStart, pointer := 0,
      fhcpLastIndex := fhcpLastIndex }

/-- `URLImpl.host` setter: no-op on a cannot-be-a-base record, otherwise
re-enter the basic URL parser with the record and the host state
override, discarding the outcome (the in-place mutations survive; a
thrown exception would escape the setter, modelled as `none`). -/
def jsURLSetHost (d2a : Str → Option Str) (li : Nat) (r : URLRec) (val : Str)
    (fuel : Nat) : Option (URLRec × Nat) :=
  if r.cannotBeABaseURLFlag then some (r, li)
  else
    match basicURLParser val none none (some r) (some .Host) d2a li fuel with
    | some (.success st) => some (st.url, st.fhcpLastIndex)
    | some (.failure st) => some (st.url, st.fhcpLastIndex)
    | _ => none

/-- `URLImpl.port` setter: no-op when the record cannot have a port; an
empty value nulls the port; otherwise re-enter the parser with the port
state override, discarding the outcome. -/
def jsURLSetPort (d2a : Str → Option Str) (li : Nat) (r : URLRec) (val : Str)
    (fuel : Nat) : Option (URLRec × Nat) :=
  if cannotHaveAUsernamePasswordPort r then some (r, li)
  else if val = [] then some ({ r with port := none }, li)
  else
    match basicURLParser val none none (some r) (some .Port) d2a li fuel with
    | some (.success st) => some (st.url, st.fhcpLastIndex)
    | some (.failure st) => some (st.url, st.fhcpLastIndex)
    | _ => none

/-- `URLImpl.protocol` setter: re-enter the parser on `val + ":"` with the
scheme start state override, discarding the outcome. -/
def jsURLSetProtocol (d2a : Str → Option Str) (li : Nat) (r : URLRec)
    (val : Str) (fuel : Nat) : Option (URLRec × Nat) :=
  match basicURLParser (val ++ [':']) none none (some r) (some .SchemeStart)
      d2a li fuel with
  | some (.success st) => some (st.url, st.fhcpLastIndex)
  | some (.failure st) => some (st.url, st.fhcpLastIndex)
  | _ => none

/-- An identity `domain_to_ascii`, the behaviour of the real uts46
collaborator on the short all-ASCII, already-lowercase domains used in
the concrete evaluations below (space is `disallowed_STD3_valid`, hence
valid under `UseSTD3ASCIIRules=false`). -/
def d2aId : Str → Option Str := fun s => some s

def parseOutcome (s : Str) : Option Outcome :=
  basicURLParser s none none none none d2aId 0 64

/-- The record of a successful outcome. -/
def outSuccess : Option Outcome → Option URLRec
  | some (.success st) => some st.url
  | _ => none

/-- The (mutated) record carried by a failure outcome. -/
def outFail : Option Outcome → Option URLRec
  | some (.failure st) => some st.url
  | _ => none

def isThrownOutcome : Option Outcome → Bool
  | some (.thrown _) => true
  | _ => false

/-- C2: `percentDecode` is claimed to emit a `%` verbatim whenever at
least one of the two following bytes is not an ASCII hex digit.  The code
instead decodes whenever at least one of them IS a hex digit (it tests
`!isHexDigit(input[i+1]) && !isHexDigit(input[i+2])`): on `%4G` it feeds
`"4G"` to `parseInt(·, 16)` and stores 4, on `%G4` `parseInt` yields NaN,
which the `Uint8Array` store turns into byte 0.  Only when both following
bytes are non-hex (`%GG`), or fewer than two bytes follow, does the `%`
survive verbatim as the claim demands. -/
theorem claim_C2 :
    percentDecode [0x25, 0x34, 0x47] = [0x04] ∧
    percentDecode [0x25, 0x47, 0x34] = [0x00] ∧
    percentDecode [0x25, 0x47, 0x47] = [0x25, 0x47, 0x47] ∧
    percentDecode [0x25, 0x34] = [0x25, 0x34] ∧
    percentDecode [0x25, 0x34, 0x31] = [0x41] := by decide

/-- C8: the claim (and the source's own doc comments) say a (normalized)
Windows drive letter consists of exactly two code points.  The source
tests `str.length >= 2`, so `"a:b"` (three code points) also satisfies
`isNormalizedWindowsDriveLetter`, and `"a|bc"` (four code points)
satisfies `isWindowsDriveLetter`; the forward direction of the claimed
"exactly two code points" biconditional fails. -/
theorem claim_C8 :
    isNormalizedWindowsDriveLetter "a:b".data = true ∧
    ("a:b".data).length = 3 ∧
    isWindowsDriveLetter "a|bc".data = true ∧
    ("a|bc".data).length = 4 ∧
    isNormalizedWindowsDriveLetter "a:".data = true ∧
    isWindowsDriveLetter "a|".data = true ∧
    isWindowsDriveLetter "ab".data = false := by decide

/-- C9: the form-encode round-trip fails because `urlEncodedParser` never
percent-decodes the split halves (its own step-3.5 comment says it
should).  Serializing the single pair `("%", "")` yields `"%25="`, and
parsing the UTF-8 bytes of that string returns the pair `("%25", "")`,
not the original list. -/
theorem claim_C9 :
    urlEncodedSerializer [("%".data, "".data)] none = some "%25=".data ∧
    urlEncodedParser (utf8Encode "%25=".data) = [("%25".data, "".data)] ∧
    [("%25".data, "".data)] ≠ [("%".data, "".data)] := by decide

/-- C3: the domain branch of `hostParser` does not reject every forbidden
host code point, and its outcome is not a function of its arguments.  The
character class of `_forbiddenHostCodePoint` contains U+000C FF instead
of the U+000A LF its own comment lists, so a domain whose
`domain_to_ascii` image contains a LF is accepted; and because the regex
is global (`g` flag) and owned by the algorithm instance, its persistent
`lastIndex` makes two identical calls disagree: with the space-containing
domain `"a b"` the first call fails (match at index 1, `lastIndex`
becomes 2) while an identical call issued next succeeds.  (`domain_to_ascii`
is the external uts46 collaborator, instantiated here with the identity,
its actual behaviour on these all-valid-or-STD3 inputs.) -/
theorem claim_C3 :
    (hostParser (fun s => some s) 0 "a\nb".data false).1 =
      some (Host.str "a\nb".data) ∧
    (hostParser (fun s => some s) 0 "a b".data false).1 = none ∧
    (hostParser (fun s => some s) 0 "a b".data false).2 = 2 ∧
    (hostParser (fun s => some s) 2 "a b".data false).1 =
      some (Host.str "a b".data) := by decide

/-- C1: the serialization round-trip fails.  Parsing `file:x` succeeds
with a null host, its serialization is `file:///x`, and parsing that
serialization yields a record whose host is the empty string - the two
records differ in a field other than the blob entry.  (The serializer of
this spec snapshot writes `//` for a null-host file URL and has no
`/.` guard, the upstream changes that later made the round-trip hold.) -/
theorem claim_C1 :
    outSuccess (parseOutcome "file:x".data) =
      some { newURL with scheme := "file".data, path := ["x".data] } ∧
    (outSuccess (parseOutcome "file:x".data)).map
      (fun u => urlSerializer u false) = some "file:///x".data ∧
    outSuccess (parseOutcome "file:///x".data) =
      some { newURL with
        scheme := "file".data,
        host := some (Host.str []),
        path := ["x".data] } ∧
    (none : Option Host) ≠ some (Host.str []) := by decide

/-- The concrete record used for the C5 counterexample: the record of a
parsed `http://x/`. -/
def httpXRec : URLRec :=
  { newURL with
    scheme := "http".data,
    host := some (Host.str "x".data),
    path := [[]] }

/-- C5 counterexample: the host setter on `http://x/` with the value
`a:65536` re-enters the parser with the host state override; the parse
fails (invalid port), yet the record's host has already been mutated from
`"x"` to `"a"`, so the record is NOT left exactly as it was. -/
theorem claim_C5_cex :
    outSuccess (parseOutcome "http://x/".data) = some httpXRec ∧
    outFail (basicURLParser "a:65536".data none none (some httpXRec)
        (some .Host) d2aId 0 64) =
      some { httpXRec with host := some (Host.str "a".data) } ∧
    jsURLSetHost d2aId 0 httpXRec "a:65536".data 64 =
      some ({ httpXRec with host := some (Host.str "a".data) }, 0) ∧
    { httpXRec with host := some (Host.str "a".data) } ≠ httpXRec := by decide

/-- The concrete record used for the C7 counterexample: a record with the
non-file scheme `ftp` and a null host. -/
def ftpNullHostRec : URLRec := { newURL with scheme := "ftp".data }

/-- C7 counterexample: with the scheme start state override, a record
whose scheme is `ftp` (non-file) and whose host is null, and the new
scheme `file`, the claim's condition (c) ("transitioning from a non-file
scheme to `file` while its host is null or empty") demands an early
return with the scheme unchanged; the code's test is on the CURRENT
scheme (`url.scheme === "file"`), so it instead sets the scheme to
`file`. -/
theorem claim_C7_cex :
    outSuccess (basicURLParser "file:".data none none (some ftpNullHostRec)
        (some .SchemeStart) d2aId 0 16) =
      some { ftpNullHostRec with scheme := "file".data } ∧
    "file".data ≠ ftpNullHostRec.scheme := by decide

/-- The base record used for the C10 counterexample: a file-scheme record
with an empty path (expressible directly; the basic URL parser is
documented to accept every base record). -/
def fileEmptyPathBase : URLRec := { newURL with scheme := "file".data }

/-- C10 counterexample: parsing `file:/x` (no overrides, no caller
record) against a file-scheme base whose path is empty reaches the file
slash state, where the source reads `baseURL.path[0]` (`undefined`) and
passes it to `isNormalizedWindowsDriveLetter`, whose `str.length` access
throws a `TypeError` - so the parser does not always return a record or
the failure sentinel. -/
theorem claim_C10_cex :
    isThrownOutcome (basicURLParser "file:/x".data (some fileEmptyPathBase)
      none none none d2aId 0 64) = true := by decide

/-- One loop iteration respects the invariant `I` and the outcome
property `P`.  (`P (.success st')` need not be checked here: the EOF exit
is covered by a separate hypothesis of `runAux_induct`.) -/
def stepOk (env : PEnv) (I : MState → Prop) (P : Outcome → Prop)
    (st : MState) : Prop :=
  ∀ r, step env st = r →
    match r with
    | .halt o => P o
    | .jump st' => I st'
    | .next st' => I st'

/-- The master induction over the parser loop: if `I` holds initially, is
preserved by every iteration and by pointer moves, and `I` implies `P` of
a success outcome, then every outcome the loop can produce satisfies
`P`. -/
theorem runAux_induct (env : PEnv) (I : MState → Prop) (P : Outcome → Prop)
    (hptr : ∀ st p, I st → I { st with pointer := p })
    (hsucc : ∀ st, I st → P (.success st))
    (hstep : ∀ st, I st → stepOk env I P st) :
    ∀ fuel st, I st → ∀ o, runAux env fuel st = some o → P o := by
  intro fuel
  induction fuel with
  | zero => intro st _ o h; simp [runAux] at h
  | succ n ih =>
    intro st hI o hrun
    have hok := hstep st hI
    unfold stepOk at hok
    unfold runAux at hrun
    cases hs : step env st with
    | halt o' =>
      rw [hs] at hrun
      cases hrun
      exact hok _ hs
    | jump st' =>
      rw [hs] at hrun
      exact ih st' (hok _ hs) o hrun
    | next st' =>
      rw [hs] at hrun
      have hok2 : I st' := hok _ hs
      by_cases heof : (env.input.length : Int) ≤ st'.pointer
      · simp only [heof, if_true] at hrun
        cases hrun
        exact hsucc st' hok2
      · simp only [heof, if_false] at hrun
        exact ih _ (hptr st' _ hok2) o hrun

theorem pathSegMid_encoding (st : MState) (c : JChar) :
    (pathSegMid st c).encoding = st.encoding := by
  simp only [pathSegMid]
  repeat' split
  all_goals rfl

theorem pathSegMid_state (st : MState) (c : JChar) :
    (pathSegMid st c).state = st.state := by
  simp only [pathSegMid]
  repeat' split
  all_goals rfl

theorem pathStrip_encoding (st : MState) (c : JChar) :
    (pathStrip st c).encoding = st.encoding := by
  simp only [pathStrip]
  split
  all_goals rfl

theorem pathStrip_state (st : MState) (c : JChar) :
    (pathStrip st c).state = st.state := by
  simp only [pathStrip]
  split
  all_goals rfl

theorem stepPathTerm_encoding (st : MState) (c : JChar) :
    (stepPathTerm st c).encoding = st.encoding := by
  simp only [stepPathTerm]
  split
  · simpa using (pathStrip_encoding { pathSegMid st c with buffer := [] } c).trans
      (pathSegMid_encoding st c)
  split
  · simpa using (pathStrip_encoding { pathSegMid st c with buffer := [] } c).trans
      (pathSegMid_encoding st c)
  · simpa using (pathStrip_encoding { pathSegMid st c with buffer := [] } c).trans
      (pathSegMid_encoding st c)

theorem stepPathTerm_state_mem (st : MState) (c : JChar) :
    (stepPathTerm st c).state = PState.Query ∨
    (stepPathTerm st c).state = PState.Fragment ∨
    (stepPathTerm st c).state = st.state := by
  simp only [stepPathTerm]
  split
  · simp
  split
  · simp
  · right; right
    simpa using (pathStrip_state { pathSegMid st c with buffer := [] } c).trans
      (pathSegMid_state st c)

/-- The outcome is not an escaped exception. -/
def notThrown : Outcome → Prop
  | .thrown _ => False
  | _ => True

/-- The invariant for the no-throw theorem: the encoding stays `UTF-8`
(so the query state's non-UTF-8 guard cannot fire) and the three states
whose code dereferences `baseURL` - relative, relative slash, and special
relative or authority (which falls through to relative) - are only ever
entered with a non-null base. -/
def c10Inv (env : PEnv) (st : MState) : Prop :=
  st.encoding = "UTF-8".data ∧
  ((st.state = PState.Relative ∨ st.state = PState.RelativeSlash ∨
      st.state = PState.SpecialRelativeOrAuthority) → env.base.isSome)

theorem upperStr_utf8 : upperStr "UTF-8".data = "UTF-8".data := by decide

theorem baseSchemeIs_isSome {base : Option URLRec} {s : Str}
    (h : baseSchemeIs base s = true) : base.isSome := by
  cases base with
  | none => simp [baseSchemeIs] at h
  | some b => rfl

set_option maxHeartbeats 2000000 in
theorem c10_stepOk (env : PEnv)
    (hB : ∀ b, env.base = some b → ¬(b.scheme = "file".data ∧ b.path = []))
    (st : MState) (hI : c10Inv env st) :
    stepOk env (c10Inv env) notThrown st := by
  obtain ⟨hEnc, hBase⟩ := hI
  obtain ⟨url, buffer, atF, arrF, pwF, enc, state, ptr, li⟩ := st
  simp only at hEnc hBase
  subst hEnc
  intro r hr
  cases state
  case SchemeStart =>
    simp only [step, stepSchemeStart] at hr
    repeat' split at hr
    all_goals (subst hr; simp_all [c10Inv, notThrown, baseSchemeIs, upperStr_utf8])
  case Scheme =>
    simp only [step, stepScheme] at hr
    repeat' split at hr
    all_goals (subst hr)
    all_goals try simp_all [c10Inv, notThrown, baseSchemeIs, upperStr_utf8]
    all_goals (rcases hb : env.base with _ | b <;> simp_all)
  case NoScheme =>
    simp only [step, stepNoScheme] at hr
    repeat' split at hr
    all_goals (subst hr; simp_all [c10Inv, notThrown, baseSchemeIs, upperStr_utf8])
  case SpecialRelativeOrAuthority =>
    simp only [step, stepSpecialRelativeOrAuthority] at hr
    repeat' split at hr
    all_goals (subst hr; simp_all [c10Inv, notThrown, baseSchemeIs, upperStr_utf8])
  case PathOrAuthority =>
    simp only [step, stepPathOrAuthority] at hr
    repeat' split at hr
    all_goals (subst hr; simp_all [c10Inv, notThrown, baseSchemeIs, upperStr_utf8])
  case Relative =>
    simp only [step, stepRelative] at hr
    repeat' split at hr
    all_goals (subst hr; simp_all [c10Inv, notThrown, baseSchemeIs, upperStr_utf8])
  case RelativeSlash =>
    simp only [step, stepRelativeSlash] at hr
    repeat' split at hr
    all_goals (subst hr; simp_all [c10Inv, notThrown, baseSchemeIs, upperStr_utf8])
  case SpecialAuthoritySlashes =>
    simp only [step, stepSpecialAuthoritySlashes] at hr
    repeat' split at hr
    all_goals (subst hr; simp_all [c10Inv, notThrown, baseSchemeIs, upperStr_utf8])
  case SpecialAuthorityIgnoreSlashes =>
    simp only [step, stepSpecialAuthorityIgnoreSlashes] at hr
    repeat' split at hr
    all_goals (subst hr; simp_all [c10Inv, notThrown, baseSchemeIs, upperStr_utf8])
  case Authority =>
    simp only [step, stepAuthority] at hr
    repeat' split at hr
    all_goals (subst hr; simp_all [c10Inv, notThrown, baseSchemeIs, upperStr_utf8])
  case Host =>
    simp only [step, stepHostLike] at hr
    repeat' split at hr
    all_goals (subst hr; simp_all [c10Inv, notThrown, baseSchemeIs, upperStr_utf8])
  case Hostname =>
    simp only [step, stepHostLike] at hr
    repeat' split at hr
    all_goals (subst hr; simp_all [c10Inv, notThrown, baseSchemeIs, upperStr_utf8])
  case Port =>
    simp only [step, stepPort] at hr
    repeat' split at hr
    all_goals (subst hr; simp_all [c10Inv, notThrown, baseSchemeIs, upperStr_utf8])
  case File =>
    simp only [step, stepFile] at hr
    repeat' split at hr
    all_goals (subst hr; simp_all [c10Inv, notThrown, baseSchemeIs, upperStr_utf8])
  case FileSlash =>
    simp only [step, stepFileSlash] at hr
    repeat' split at hr
    all_goals (subst hr; simp_all [c10Inv, notThrown, baseSchemeIs, upperStr_utf8])
  case FileHost =>
    simp only [step, stepFileHost] at hr
    repeat' split at hr
    all_goals (subst hr; simp_all [c10Inv, notThrown, baseSchemeIs, upperStr_utf8])
  case PathStart =>
    simp only [step, stepPathStart] at hr
    repeat' split at hr
    all_goals (subst hr; simp_all [c10Inv, notThrown, baseSchemeIs, upperStr_utf8])
  case Path =>
    simp only [step, stepPath] at hr
    split at hr
    all_goals (subst hr)
    · refine ⟨stepPathTerm_encoding _ _, fun hx => ?_⟩
      rcases stepPathTerm_state_mem _ _ with h | h | h <;> rw [h] at hx <;>
        simp at hx
    · exact ⟨rfl, by simp⟩
  case CannotBeABaseURLPath =>
    simp only [step, stepCannotBeABaseURLPath] at hr
    repeat' split at hr
    all_goals (subst hr; simp_all [c10Inv, notThrown, baseSchemeIs, upperStr_utf8])
  case Query =>
    simp only [step, stepQuery] at hr
    repeat' split at hr
    all_goals (subst hr)
    all_goals try simp_all [c10Inv, notThrown, upperStr_utf8]
    all_goals (rename_i hu; exact absurd (by decide) hu)
  case Fragment =>
    simp only [step, stepFragment] at hr
    repeat' split at hr
    all_goals (subst hr; simp_all [c10Inv, notThrown, baseSchemeIs, upperStr_utf8])

/-- A record's port is never its scheme's default port. -/
def portInv (u : URLRec) : Prop :=
  ∀ p, u.port = some p → defaultPort u.scheme ≠ some p

theorem portInv_none {u : URLRec} (h : u.port = none) : portInv u := by
  intro p hp
  rw [h] at hp
  cases hp

theorem portInv_file {u : URLRec} (h : u.scheme = "file".data) : portInv u := by
  intro p hp
  rw [h]
  simp [defaultPort]

/-- The port fix-up of the scheme-override branch preserves the
invariant. -/
theorem portInv_fix (u : URLRec) :
    portInv (if u.port = defaultPort u.scheme then { u with port := none }
             else u) := by
  split
  · exact portInv_none rfl
  · intro p hp h
    rename_i hne
    rw [hp, h] at hne
    exact hne rfl

/-- The port-state assignment preserves the invariant. -/
theorem portInv_set (u : URLRec) (n : Nat) :
    portInv { u with
      port := if some n = defaultPort u.scheme then none else some n } := by
  intro p hp h
  simp only at hp
  split at hp
  · cases hp
  · rename_i hne
    cases hp
    rw [h] at hne
    exact hne rfl

theorem charAt_eof_le {s : Str} {p : Int} (h : charAt s p = JChar.eof) :
    (s.length : Int) ≤ p := by
  unfold charAt at h
  split at h
  · cases h
  · rename_i hp
    split at h
    · cases h
    · rename_i hn
      have hlen := List.get?_eq_none.mp hn
      omega

/-- A step obligation refined for invariants that a state produced
exactly at EOF (and immediately returned) need not satisfy. -/
def stepOk2 (env : PEnv) (I : MState → Prop) (P : Outcome → Prop)
    (st : MState) : Prop :=
  ∀ r, step env st = r →
    match r with
    | .halt o => P o
    | .jump st' => I st'
    | .next st' => P (.success st') ∧
        ((env.input.length : Int) ≤ st'.pointer ∨
          I { st' with pointer := st'.pointer + 1 })

/-- A refined loop induction: on fall-through the invariant is only
needed when the loop actually continues (the pointer is not yet at EOF);
a state produced at EOF is immediately returned. -/
theorem runAux_induct2 (env : PEnv) (I : MState → Prop) (P : Outcome → Prop)
    (hstep : ∀ st, I st → stepOk2 env I P st) :
    ∀ fuel st, I st → ∀ o, runAux env fuel st = some o → P o := by
  intro fuel
  induction fuel with
  | zero => intro st _ o h; simp [runAux] at h
  | succ n ih =>
    intro st hI o hrun
    unfold runAux at hrun
    cases hs : step env st with
    | halt o' =>
      rw [hs] at hrun
      cases hrun
      exact hstep st hI _ hs
    | jump st' =>
      rw [hs] at hrun
      exact ih st' (hstep st hI _ hs) o hrun
    | next st' =>
      rw [hs] at hrun
      have hok := hstep st hI _ hs
      by_cases heof : (env.input.length : Int) ≤ st'.pointer
      · simp only [heof, if_true] at hrun
        cases hrun
        exact hok.1
      · simp only [heof, if_false] at hrun
        rcases hok.2 with h | h
        · exact absurd h heof
        · exact ih _ h o hrun

/-- The overrides used by the public setters (protocol, host, hostname,
port, pathname, search, hash). -/
def setterOv (ov : Option PState) : Prop :=
  ov = none ∨ ov = some PState.SchemeStart ∨ ov = some PState.Host ∨
  ov = some PState.Hostname ∨ ov = some PState.Port ∨
  ov = some PState.PathStart ∨ ov = some PState.Query ∨
  ov = some PState.Fragment

/-- The set of states reachable in a run that starts at a setter's state
override. -/
def ovStatesC4 : PState → PState → Bool
  | .SchemeStart, t => t = .SchemeStart || t = .Scheme
  | .Host, t => t = .Host || t = .Port || t = .FileHost
  | .Hostname, t => t = .Hostname || t = .Port || t = .FileHost
  | .Port, t => t = .Port
  | .PathStart, t => t = .PathStart || t = .Path
  | .Query, t => t = .Query
  | .Fragment, t => t = .Fragment
  | _, _ => false

/-- The states of an override-free run during which the record's scheme
is not yet settled (the scheme can still change after them). -/
def schemePhase : PState → Bool
  | .SchemeStart | .Scheme | .NoScheme | .SpecialRelativeOrAuthority
  | .Relative => true
  | _ => false

/-- The invariant for the default-port theorem: the record's port is
never its scheme's default; in an override-free run the port is still
null while the machine can yet change the scheme (scheme states and the
relative-state entry), and the relative slash state only runs after the
scheme was copied from the base; in an override run only the states
reachable from that setter's override occur. -/
def c4Inv (env : PEnv) (st : MState) : Prop :=
  portInv st.url ∧
  (env.ov = none → schemePhase st.state = true → st.url.port = none) ∧
  (env.ov = none → st.state = PState.RelativeSlash →
    ∀ b, env.base = some b → st.url.scheme = b.scheme) ∧
  (∀ s, env.ov = some s → ovStatesC4 s st.state = true)

theorem portInv_congr {u v : URLRec} (hp : v.port = u.port)
    (hs : v.scheme = u.scheme) (h : portInv u) : portInv v := by
  intro p hpp hd
  exact h p (hp ▸ hpp) (hs ▸ hd)

theorem shorten_port (u : URLRec) : (shorten u).port = u.port := by
  simp only [shorten]
  repeat' split
  all_goals rfl

theorem shorten_scheme (u : URLRec) : (shorten u).scheme = u.scheme := by
  simp only [shorten]
  repeat' split
  all_goals rfl

theorem pathSegMid_port (st : MState) (c : JChar) :
    (pathSegMid st c).url.port = st.url.port := by
  simp only [pathSegMid]
  repeat' split
  all_goals simp [shorten_port]

theorem pathSegMid_scheme (st : MState) (c : JChar) :
    (pathSegMid st c).url.scheme = st.url.scheme := by
  simp only [pathSegMid]
  repeat' split
  all_goals simp [shorten_scheme]

theorem pathStrip_port (st : MState) (c : JChar) :
    (pathStrip st c).url.port = st.url.port := by
  simp only [pathStrip]
  split
  all_goals rfl

theorem pathStrip_scheme (st : MState) (c : JChar) :
    (pathStrip st c).url.scheme = st.url.scheme := by
  simp only [pathStrip]
  split
  all_goals rfl

theorem stepPathTerm_port (st : MState) (c : JChar) :
    (stepPathTerm st c).url.port = st.url.port := by
  have h1 := pathStrip_port { pathSegMid st c with buffer := [] } c
  have h2 := pathSegMid_port st c
  simp only [stepPathTerm]
  repeat' split
  all_goals simp_all

theorem stepPathTerm_scheme (st : MState) (c : JChar) :
    (stepPathTerm st c).url.scheme = st.url.scheme := by
  have h1 := pathStrip_scheme { pathSegMid st c with buffer := [] } c
  have h2 := pathSegMid_scheme st c
  simp only [stepPathTerm]
  repeat' split
  all_goals simp_all

theorem stepPathTerm_state_ne (st : MState) (c : JChar)
    (hq : ¬c = JChar.chr '?') (hh : ¬c = JChar.chr '#') :
    (stepPathTerm st c).state = st.state := by
  have h1 := pathStrip_state { pathSegMid st c with buffer := [] } c
  have h2 := pathSegMid_state st c
  simp only [stepPathTerm]
  rw [if_neg hq, if_neg hh]
  simp_all

/-- A left fold whose body never touches the record's port and scheme
(the authority state's userinfo fold) preserves them. -/
theorem foldl_pres_port (f : URLRec × Bool → Char → URLRec × Bool)
    (hf : ∀ a c, (f a c).1.port = a.1.port ∧ (f a c).1.scheme = a.1.scheme)
    (l : Str) : ∀ p : URLRec × Bool,
    (List.foldl f p l).1.port = p.1.port ∧
      (List.foldl f p l).1.scheme = p.1.scheme := by
  induction l with
  | nil => intro p; exact ⟨rfl, rfl⟩
  | cons c cs ih =>
    intro p
    simp only [List.foldl_cons]
    exact ⟨(ih (f p c)).1.trans (hf p c).1, (ih (f p c)).2.trans (hf p c).2⟩

/-- The outcome property for the default-port theorem. -/
def portOut : Outcome → Prop
  | .success st => portInv st.url
  | _ => True

theorem userInfoFoldStep_pres (a : URLRec × Bool) (c : Char) :
    (userInfoFoldStep a c).1.port = a.1.port ∧
      (userInfoFoldStep a c).1.scheme = a.1.scheme := by
  simp only [userInfoFoldStep]
  repeat' split
  all_goals exact ⟨rfl, rfl⟩

set_option maxHeartbeats 4000000 in
/-- One loop iteration preserves the default-port invariant: the scheme
state's override exit and the port state null the port when it equals the
(new) scheme's default, the relative states copy a port-scheme pair from
the base, and every other assignment leaves port and scheme alone. -/
theorem c4_stepOk (env : PEnv)
    (hbase : ∀ b, env.base = some b → portInv b)
    (hov : setterOv env.ov)
    (st : MState) (hI : c4Inv env st) :
    stepOk2 env (c4Inv env) portOut st := by
  obtain ⟨hI1, hI2, hI3, hI4⟩ := hI
  obtain ⟨url, buffer, atF, arrF, pwF, enc, state, ptr, li⟩ := st
  simp only at hI1 hI2 hI3 hI4
  intro r hr
  cases state
  case SchemeStart =>
    simp only [step, stepSchemeStart] at hr
    repeat' split at hr
    all_goals subst hr
    all_goals try (first
      | exact trivial
      | exact hI1
      | exact portInv_none rfl
      | exact portInv_file rfl
      | (intro p hp h; apply absurd (hp.trans h.symm); assumption))
    all_goals try (refine ⟨?_, Or.inr ⟨?_, ?_, ?_, ?_⟩⟩ <;> first
      | exact hI1
      | exact portInv_none rfl
      | (apply portInv_none; refine hI2 ?_ rfl; apply Option.not_isSome_iff_eq_none.mp; assumption)
      | exact portInv_file rfl
      | exact portInv_file ((shorten_scheme _).trans rfl)
      | (intro p hp h; apply absurd (hp.trans h.symm); assumption)
      | (intro h1 h2; simp [schemePhase] at h2; done)
      | (intro h1 h2; exact hI2 h1 rfl)
      | (intro s hs; have h4 := hI4 s hs; revert h4; cases s <;> simp [ovStatesC4]; done)
      | (intro s hs; simp_all; done))
  case Scheme =>
    simp only [step, stepScheme] at hr
    repeat' split at hr
    all_goals subst hr
    all_goals try (first
      | exact trivial
      | exact hI1
      | exact portInv_none rfl
      | exact portInv_file rfl
      | (intro p hp h; apply absurd (hp.trans h.symm); assumption))
    all_goals try (refine ⟨?_, Or.inr ⟨?_, ?_, ?_, ?_⟩⟩ <;> first
      | exact hI1
      | exact portInv_none rfl
      | (apply portInv_none; refine hI2 ?_ rfl; apply Option.not_isSome_iff_eq_none.mp; assumption)
      | exact portInv_file rfl
      | exact portInv_file ((shorten_scheme _).trans rfl)
      | (intro p hp h; apply absurd (hp.trans h.symm); assumption)
      | (intro h1 h2; simp [schemePhase] at h2; done)
      | (intro h1 h2; exact hI2 h1 rfl)
      | (intro s hs; have h4 := hI4 s hs; revert h4; cases s <;> simp [ovStatesC4]; done)
      | (intro s hs; simp_all; done))
    all_goals try (refine ⟨?_, ?_, ?_, ?_⟩ <;> first
      | exact hI1
      | (intro h1 h2; exact hI2 h1 rfl)
      | (intro h1 h2; simp [schemePhase] at h2; done)
      | (intro s hs; simp_all; done))
  case NoScheme =>
    have hovn : env.ov = none := by
      rcases hov with h | h | h | h | h | h | h | h
      · exact h
      all_goals exact absurd (hI4 _ h) (by decide)
    simp only [step, stepNoScheme] at hr
    repeat' split at hr
    all_goals subst hr
    all_goals try (first
      | exact trivial
      | exact hI1
      | exact portInv_none rfl
      | exact portInv_file rfl
      | (intro p hp h; apply absurd (hp.trans h.symm); assumption))
    all_goals try (refine ⟨?_, Or.inr ⟨?_, ?_, ?_, ?_⟩⟩ <;> first
      | exact hI1
      | exact portInv_none rfl
      | exact portInv_none (hI2 hovn rfl)
      | exact portInv_file rfl
      | exact portInv_file ((shorten_scheme _).trans rfl)
      | (intro p hp h; apply absurd (hp.trans h.symm); assumption)
      | (intro h1 h2; simp [schemePhase] at h2; done)
      | (intro h1 h2; exact hI2 h1 rfl)
      | (intro s hs; have h4 := hI4 s hs; revert h4; cases s <;> simp [ovStatesC4]; done)
      | (intro s hs; rw [hovn] at hs; cases hs)
      | (intro s hs; simp_all; done))
  case SpecialRelativeOrAuthority =>
    simp only [step, stepSpecialRelativeOrAuthority] at hr
    repeat' split at hr
    all_goals subst hr
    all_goals try (refine ⟨?_, Or.inr ⟨?_, ?_, ?_, ?_⟩⟩ <;> first
      | exact hI1
      | (intro h1 h2; simp [schemePhase] at h2; done)
      | (intro h1 h2; exact hI2 h1 rfl)
      | (intro s hs; have h4 := hI4 s hs; revert h4; cases s <;> simp [ovStatesC4]; done)
      | (intro s hs; simp_all; done))
  case PathOrAuthority =>
    simp only [step, stepPathOrAuthority] at hr
    repeat' split at hr
    all_goals subst hr
    all_goals try (refine ⟨?_, Or.inr ⟨?_, ?_, ?_, ?_⟩⟩ <;> first
      | exact hI1
      | (intro h1 h2; simp [schemePhase] at h2; done)
      | (intro h1 h2; exact hI2 h1 rfl)
      | (intro s hs; have h4 := hI4 s hs; revert h4; cases s <;> simp [ovStatesC4]; done)
      | (intro s hs; simp_all; done))
  case Relative =>
    have hovn : env.ov = none := by
      rcases hov with h | h | h | h | h | h | h | h
      · exact h
      all_goals exact absurd (hI4 _ h) (by decide)
    rcases hBeq : env.base with _ | b
    · simp only [step, stepRelative, hBeq] at hr
      subst hr
      exact trivial
    · have hb := hbase b hBeq
      simp only [step, stepRelative, hBeq] at hr
      repeat' split at hr
      all_goals subst hr
      all_goals try (first
        | (rename_i hE; exact ⟨hb, Or.inl (charAt_eof_le hE)⟩)
        | exact ⟨hb, Or.inr ⟨hb, fun h1 h2 => by simp [schemePhase] at h2,
            fun h1 h2 => by simp [schemePhase] at h2,
            fun s hs => by rw [hovn] at hs; cases hs⟩⟩)
      all_goals (refine ⟨?_, Or.inr ⟨?_, ?_, ?_, ?_⟩⟩ <;> first
        | exact portInv_none (hI2 hovn rfl)
        | (intro h1 h2; simp [schemePhase] at h2; done)
        | (intro h1 h2 bb hbb; rw [hBeq] at hbb; injection hbb with hbb2;
           subst hbb2; exact rfl)
        | (intro s hs; rw [hovn] at hs; cases hs))
  case RelativeSlash =>
    have hovn : env.ov = none := by
      rcases hov with h | h | h | h | h | h | h | h
      · exact h
      all_goals exact absurd (hI4 _ h) (by decide)
    simp only [step, stepRelativeSlash] at hr
    repeat' split at hr
    all_goals subst hr
    all_goals try (first
      | exact trivial
      | (refine ⟨?_, Or.inr ⟨?_, ?_, ?_, ?_⟩⟩ <;> first
          | exact hI1
          | (intro h1 h2; simp [schemePhase] at h2; done)
          | (intro s hs; rw [hovn] at hs; cases hs)))
    all_goals (
      rename_i b hBeq
      exact ⟨fun p hp hd => hbase b hBeq p hp
          (by rw [← hI3 hovn rfl b hBeq]; exact hd),
        Or.inr ⟨fun p hp hd => hbase b hBeq p hp
            (by rw [← hI3 hovn rfl b hBeq]; exact hd),
          fun h1 h2 => by simp [schemePhase] at h2,
          fun h1 h2 => by simp [schemePhase] at h2,
          fun s hs => by rw [hovn] at hs; cases hs⟩⟩)
  case SpecialAuthoritySlashes =>
    simp only [step, stepSpecialAuthoritySlashes] at hr
    repeat' split at hr
    all_goals subst hr
    all_goals try (refine ⟨?_, Or.inr ⟨?_, ?_, ?_, ?_⟩⟩ <;> first
      | exact hI1
      | (intro h1 h2; simp [schemePhase] at h2; done)
      | (intro s hs; have h4 := hI4 s hs; revert h4; cases s <;> simp [ovStatesC4]; done)
      | (intro s hs; simp_all; done))
  case SpecialAuthorityIgnoreSlashes =>
    simp only [step, stepSpecialAuthorityIgnoreSlashes] at hr
    repeat' split at hr
    all_goals subst hr
    all_goals try (refine ⟨?_, Or.inr ⟨?_, ?_, ?_, ?_⟩⟩ <;> first
      | exact hI1
      | (intro h1 h2; simp [schemePhase] at h2; done)
      | (intro s hs; have h4 := hI4 s hs; revert h4; cases s <;> simp [ovStatesC4]; done)
      | (intro s hs; simp_all; done))
  case Authority =>
    simp only [step, stepAuthority] at hr
    repeat' split at hr
    all_goals subst hr
    all_goals try (first
      | exact trivial
      | exact hI1)
    all_goals try (refine ⟨?_, Or.inr ⟨?_, ?_, ?_, ?_⟩⟩ <;> first
      | exact hI1
      | (intro h1 h2; simp [schemePhase] at h2; done)
      | (intro s hs; have h4 := hI4 s hs; revert h4; cases s <;> simp [ovStatesC4]; done)
      | (intro s hs; simp_all; done))
    all_goals refine
      ⟨portInv_congr (foldl_pres_port userInfoFoldStep userInfoFoldStep_pres _ _).1
          (foldl_pres_port userInfoFoldStep userInfoFoldStep_pres _ _).2 hI1,
        Or.inr ⟨portInv_congr
            (foldl_pres_port userInfoFoldStep userInfoFoldStep_pres _ _).1
            (foldl_pres_port userInfoFoldStep userInfoFoldStep_pres _ _).2 hI1,
          fun h1 h2 => by simp [schemePhase] at h2,
          fun h1 h2 => by simp [schemePhase] at h2,
          fun s hs => by have h4 := hI4 s hs; revert h4; cases s <;> simp [ovStatesC4]⟩⟩
  case Host =>
    simp only [step, stepHostLike] at hr
    repeat' split at hr
    all_goals subst hr
    all_goals try (first
      | exact trivial
      | exact hI1)
    all_goals try (refine ⟨?_, Or.inr ⟨?_, ?_, ?_, ?_⟩⟩ <;> first
      | exact hI1
      | (intro h1 h2; simp [schemePhase] at h2; done)
      | (intro s hs; have h4 := hI4 s hs; revert h4; cases s <;> simp [ovStatesC4]; done)
      | (intro s hs; simp_all; done))
  case Hostname =>
    simp only [step, stepHostLike] at hr
    repeat' split at hr
    all_goals subst hr
    all_goals try (first
      | exact trivial
      | exact hI1)
    all_goals try (refine ⟨?_, Or.inr ⟨?_, ?_, ?_, ?_⟩⟩ <;> first
      | exact hI1
      | (intro h1 h2; simp [schemePhase] at h2; done)
      | (intro s hs; have h4 := hI4 s hs; revert h4; cases s <;> simp [ovStatesC4]; done)
      | (intro s hs; simp_all; done))
  case Port =>
    simp only [step, stepPort] at hr
    repeat' split at hr
    all_goals subst hr
    all_goals try (first
      | exact trivial
      | exact hI1
      | exact portInv_none rfl
      | (intro p hp h; apply absurd (hp.trans h.symm); assumption))
    all_goals try (refine ⟨?_, Or.inr ⟨?_, ?_, ?_, ?_⟩⟩ <;> first
      | exact hI1
      | exact portInv_none rfl
      | (intro p hp h; apply absurd (hp.trans h.symm); assumption)
      | (intro h1 h2; simp [schemePhase] at h2; done)
      | (intro s hs; have h4 := hI4 s hs; revert h4; cases s <;> simp [ovStatesC4]; done)
      | (intro s hs; simp_all; done))
  case File =>
    simp only [step, stepFile] at hr
    repeat' split at hr
    all_goals subst hr
    all_goals try (first
      | exact trivial
      | exact portInv_file rfl)
    all_goals try (refine ⟨?_, Or.inr ⟨?_, ?_, ?_, ?_⟩⟩ <;> first
      | exact portInv_file rfl
      | exact portInv_file ((shorten_scheme _).trans rfl)
      | (intro h1 h2; simp [schemePhase] at h2; done)
      | (intro s hs; have h4 := hI4 s hs; revert h4; cases s <;> simp [ovStatesC4]; done)
      | (intro s hs; simp_all; done))
  case FileSlash =>
    simp only [step, stepFileSlash] at hr
    repeat' split at hr
    all_goals subst hr
    all_goals try (first
      | exact trivial
      | exact hI1)
    all_goals try (refine ⟨?_, Or.inr ⟨?_, ?_, ?_, ?_⟩⟩ <;> first
      | exact hI1
      | (intro h1 h2; simp [schemePhase] at h2; done)
      | (intro s hs; have h4 := hI4 s hs; revert h4; cases s <;> simp [ovStatesC4]; done)
      | (intro s hs; simp_all; done))
  case FileHost =>
    simp only [step, stepFileHost] at hr
    repeat' split at hr
    all_goals subst hr
    all_goals try (first
      | exact trivial
      | exact hI1)
    all_goals try (refine ⟨?_, Or.inr ⟨?_, ?_, ?_, ?_⟩⟩ <;> first
      | exact hI1
      | (intro h1 h2; simp [schemePhase] at h2; done)
      | (intro s hs; have h4 := hI4 s hs; revert h4; cases s <;> simp [ovStatesC4]; done)
      | (intro s hs; simp_all; done))
  case PathStart =>
    simp only [step, stepPathStart] at hr
    repeat' split at hr
    all_goals subst hr
    all_goals try (refine ⟨?_, Or.inr ⟨?_, ?_, ?_, ?_⟩⟩ <;> first
      | exact hI1
      | (intro h1 h2; simp [schemePhase] at h2; done)
      | (intro s hs; have h4 := hI4 s hs; revert h4; cases s <;> simp [ovStatesC4]; done)
      | (intro s hs; simp_all; done))
  case Path =>
    simp only [step, stepPath] at hr
    split at hr
    · subst hr
      rename_i hterm
      refine ⟨portInv_congr (stepPathTerm_port _ _) (stepPathTerm_scheme _ _) hI1,
        Or.inr ⟨portInv_congr (stepPathTerm_port _ _) (stepPathTerm_scheme _ _) hI1,
          ?_, ?_, ?_⟩⟩
      · intro h1 h2
        simp only [] at h2
        rcases stepPathTerm_state_mem _ _ with h | h | h <;> rw [h] at h2 <;>
          simp [schemePhase] at h2
      · intro h1 h2
        simp only [] at h2
        rcases stepPathTerm_state_mem _ _ with h | h | h <;> rw [h] at h2 <;>
          simp at h2
      · intro s hs
        have hq : ¬charAt env.input ptr = JChar.chr '?' := by
          intro hq
          rw [hs, hq] at hterm
          simp at hterm
        have hh : ¬charAt env.input ptr = JChar.chr '#' := by
          intro hh
          rw [hs, hh] at hterm
          simp at hterm
        simp only []
        rw [stepPathTerm_state_ne _ _ hq hh]
        exact hI4 s hs
    · subst hr
      exact ⟨hI1, Or.inr ⟨hI1, fun h1 h2 => by simp [schemePhase] at h2,
        fun h1 h2 => by simp [schemePhase] at h2, fun s hs => hI4 s hs⟩⟩
  case CannotBeABaseURLPath =>
    simp only [step, stepCannotBeABaseURLPath] at hr
    repeat' split at hr
    all_goals subst hr
    all_goals try (refine ⟨?_, Or.inr ⟨?_, ?_, ?_, ?_⟩⟩ <;> first
      | exact hI1
      | (intro h1 h2; simp [schemePhase] at h2; done)
      | (intro s hs; have h4 := hI4 s hs; revert h4; cases s <;> simp [ovStatesC4]; done)
      | (intro s hs; simp_all; done))
  case Query =>
    simp only [step, stepQuery] at hr
    repeat' split at hr
    all_goals subst hr
    all_goals try exact trivial
    all_goals try (refine ⟨?_, Or.inr ⟨?_, ?_, ?_, ?_⟩⟩ <;> first
      | exact hI1
      | (intro h1 h2; simp [schemePhase] at h2; done)
      | (intro s hs; have h4 := hI4 s hs; revert h4; cases s <;> simp [ovStatesC4]; done)
      | (intro s hs; simp_all; done))
  case Fragment =>
    simp only [step, stepFragment] at hr
    repeat' split at hr
    all_goals subst hr
    all_goals try (refine ⟨?_, Or.inr ⟨?_, ?_, ?_, ?_⟩⟩ <;> first
      | exact hI1
      | (intro h1 h2; simp [schemePhase] at h2; done)
      | (intro s hs; have h4 := hI4 s hs; revert h4; cases s <;> simp [ovStatesC4]; done)
      | (intro s hs; simp_all; done))

/-- The machine state at the start of a `basicURLParser` run satisfies
the default-port invariant, provided the caller-supplied record (if any)
satisfies it, the state override is one a setter uses, and a record is
only supplied together with an override. -/
theorem c4_init (env : PEnv) (u0 : Option URLRec) (e : Str) (li : Nat)
    (hurl : ∀ u, u0 = some u → portInv u)
    (hov : setterOv env.ov)
    (hmix : ∀ u, u0 = some u → ¬env.ov = none) :
    c4Inv env
      { url := u0.getD newURL, buffer := [], atFlag := false,
        arrayFlag := false, passwordTokenSeenFlag := false, encoding := e,
        state := env.ov.getD PState.SchemeStart, pointer := 0,
        fhcpLastIndex := li } := by
  refine ⟨?_, ?_, ?_, ?_⟩
  · rcases hu : u0 with _ | u
    · exact portInv_none rfl
    · exact hurl u hu
  · intro hovn hsp
    rcases hu : u0 with _ | u
    · rfl
    · exact absurd hovn (hmix u hu)
  · intro hovn hst
    rw [hovn] at hst
    simp [Option.getD] at hst
  · intro s hs
    have hs2 : env.ov = some s := hs
    rw [hs2]
    simp only [Option.getD]
    rcases hov with h | h | h | h | h | h | h | h
    · rw [h] at hs2
      cases hs2
    all_goals (rw [h] at hs2; injection hs2 with h2; subst h2; decide)

/-- C4: the record produced by a successful run of the basic URL parser
never carries a port equal to its scheme's default port (ftp 21, http 80,
https 443, ws 80, wss 443): the port state stores a parsed default port
as null, and the scheme-override exit nulls the port when it equals the
new scheme's default.  This holds for override-free runs and for runs
with any state override used by the setters (scheme start, host,
hostname, port, path start, query, fragment), assuming the base record
and the caller-supplied record (always passed together with an override)
already satisfy the invariant. -/
theorem claim_C4 (input : Str) (base : Option URLRec) (enc : Option Str)
    (url0 : Option URLRec) (ov : Option PState) (d2a : Str → Option Str)
    (li fuel : Nat) (st' : MState)
    (hbase : ∀ b, base = some b → portInv b)
    (hurl : ∀ u, url0 = some u → portInv u)
    (hov : setterOv ov)
    (hmix : ∀ u, url0 = some u → ¬ov = none)
    (hrun : basicURLParser input base enc url0 ov d2a li fuel =
      some (Outcome.success st')) :
    portInv st'.url := by
  simp only [basicURLParser] at hrun
  exact runAux_induct2 _ (c4Inv _) portOut
    (fun st hI => c4_stepOk _ hbase hov st hI) fuel _
    (c4_init _ url0 (getOutputEncoding enc) li hurl hov hmix)
    (Outcome.success st') hrun

/-- The final machine state of the witness run
`basicURLParser("http://h:99/")`. -/
def c4WitnessURL : URLRec :=
  { scheme := "http".data, username := [], password := [],
    host := some (Host.str "h".data), port := some 99, path := [[]],
    query := none, fragment := none, cannotBeABaseURLFlag := false,
    blobURLEntry := false }

def c4WitnessState : MState :=
  { url := c4WitnessURL, buffer := [], atFlag := false, arrayFlag := false,
    passwordTokenSeenFlag := false, encoding := "UTF-8".data,
    state := PState.Path, pointer := 12, fhcpLastIndex := 0 }

theorem claim_C4_witness :
    basicURLParser "http://h:99/".data none none none none d2aId 0 32 =
      some (Outcome.success c4WitnessState) ∧ portInv c4WitnessState.url :=
  ⟨by decide,
    claim_C4 "http://h:99/".data none none none none d2aId 0 32
      c4WitnessState (fun b hb => by cases hb) (fun u hu => by cases hu)
      (Or.inl rfl) (fun u hu => by cases hu) (by decide)⟩


/-- The record `u` agrees with `u0` on every field except possibly the
host. -/
def sameButHost (u0 u : URLRec) : Prop := u = { u0 with host := u.host }

/-- The states the machine can visit when the parser runs under one of
the failure-capable setter overrides: the scheme start override stays in
the two scheme states; the host override can reach the port and file
host states; the hostname override only the file host state (its `:`
branch returns right after the host assignment, so the port state is
never entered); the port override stays in the port state. -/
def ovStatesC5 : PState → PState → Bool
  | .SchemeStart, t => t = .SchemeStart || t = .Scheme
  | .Host, t => t = .Host || t = .Port || t = .FileHost
  | .Hostname, t => t = .Hostname || t = .FileHost
  | .Port, t => t = .Port
  | _, _ => false

/-- The invariant for the failed-setter theorem: the record under
construction differs from the caller's record at most in its host; it
still IS the caller's record unless the override is the host state
(only the host override's `:` branch assigns the host and keeps
running); and the machine only visits states reachable from the
setter's override. -/
def c5Inv (env : PEnv) (u0 : URLRec) (st : MState) : Prop :=
  sameButHost u0 st.url ∧
  (env.ov ≠ some PState.Host → st.url = u0) ∧
  (∀ s, env.ov = some s → ovStatesC5 s st.state = true)

/-- The outcome property for the failed-setter theorem: a failure
carries a record that differs from the caller's at most in its host,
and is the caller's record itself unless the override is the host
state. -/
def failOut (u0 : URLRec) (ov : Option PState) : Outcome → Prop
  | .failure st =>
      st.url = { u0 with host := st.url.host } ∧
      (ov ≠ some PState.Host → st.url = u0)
  | _ => True

set_option maxHeartbeats 2000000 in
/-- One loop iteration under a scheme start, host, hostname or port
override touches at most the record's host - and only under the host
override, in the host state's `:` branch - and only leaves through a
success or a failure whose record obeys the same bound (every other
mutation in these states happens in the same iteration as a success
return, and every failure return precedes the mutation). -/
theorem c5_stepOk (env : PEnv) (u0 : URLRec)
    (hov : env.ov = some PState.SchemeStart ∨ env.ov = some PState.Host ∨
      env.ov = some PState.Hostname ∨ env.ov = some PState.Port)
    (st : MState) (hI : c5Inv env u0 st) :
    stepOk env (c5Inv env u0) (failOut u0 env.ov) st := by
  obtain ⟨hI1, hI2, hI4⟩ := hI
  obtain ⟨url, buffer, atF, arrF, pwF, enc, state, ptr, li⟩ := st
  simp only at hI1 hI2 hI4
  obtain ⟨s0, n0, pw0, h0, po0, pa0, q0, f0, cb0, bl0⟩ := u0
  obtain ⟨us, un, upw, uh, upo, upa, uq, uf, ucb, ubl⟩ := url
  simp only [sameButHost, URLRec.mk.injEq] at hI1
  obtain ⟨e1, e2, e3, -, e5, e6, e7, e8, e9, e10⟩ := hI1
  subst e1
  subst e2
  subst e3
  subst e10
  subst e5
  subst e6
  subst e7
  subst e8
  subst e9
  intro r hr
  cases state
  case SchemeStart =>
    have h : env.ov = some PState.SchemeStart := by
      rcases hov with h | h | h | h
      · exact h
      all_goals exact absurd (hI4 _ h) (by decide)
    have hu : uh = h0 := by simpa using hI2 (by rw [h]; simp)
    subst hu
    simp only [step, stepSchemeStart] at hr
    repeat' split at hr
    all_goals subst hr
    all_goals first
      | exact trivial
      | exact ⟨rfl, fun hne => rfl⟩
      | (refine ⟨rfl, fun hne => rfl, ?_⟩
         intro s hs
         have h4 := hI4 s hs
         revert h4
         cases s <;> simp [ovStatesC5]
         done)
      | (simp_all
         done)
  case Scheme =>
    have h : env.ov = some PState.SchemeStart := by
      rcases hov with h | h | h | h
      · exact h
      all_goals exact absurd (hI4 _ h) (by decide)
    have hu : uh = h0 := by simpa using hI2 (by rw [h]; simp)
    subst hu
    simp only [step, stepScheme] at hr
    repeat' split at hr
    all_goals subst hr
    all_goals first
      | exact trivial
      | exact ⟨rfl, fun hne => rfl⟩
      | (refine ⟨rfl, fun hne => rfl, ?_⟩
         intro s hs
         have h4 := hI4 s hs
         revert h4
         cases s <;> simp [ovStatesC5]
         done)
      | (simp_all
         done)
  case Host =>
    have h : env.ov = some PState.Host := by
      rcases hov with h | h | h | h
      · exact absurd (hI4 _ h) (by decide)
      · exact h
      all_goals exact absurd (hI4 _ h) (by decide)
    simp only [step, stepHostLike] at hr
    repeat' split at hr
    all_goals subst hr
    all_goals first
      | exact trivial
      | exact ⟨rfl, fun hne => absurd h hne⟩
      | (refine ⟨rfl, fun hne => absurd h hne, ?_⟩
         intro s hs
         have h4 := hI4 s hs
         revert h4
         cases s <;> simp [ovStatesC5]
         done)
      | (simp_all
         done)
  case Hostname =>
    have h : env.ov = some PState.Hostname := by
      rcases hov with h | h | h | h
      · exact absurd (hI4 _ h) (by decide)
      · exact absurd (hI4 _ h) (by decide)
      · exact h
      · exact absurd (hI4 _ h) (by decide)
    have hu : uh = h0 := by simpa using hI2 (by rw [h]; simp)
    subst hu
    simp only [step, stepHostLike] at hr
    repeat' split at hr
    all_goals subst hr
    all_goals first
      | exact trivial
      | exact ⟨rfl, fun hne => rfl⟩
      | (refine ⟨rfl, fun hne => rfl, ?_⟩
         intro s hs
         have h4 := hI4 s hs
         revert h4
         cases s <;> simp [ovStatesC5]
         done)
      | (simp_all
         done)
  case Port =>
    rcases hov with h | h | h | h
    · exact absurd (hI4 _ h) (by decide)
    · simp only [step, stepPort] at hr
      repeat' split at hr
      all_goals subst hr
      all_goals first
        | exact trivial
        | exact ⟨rfl, fun hne => absurd h hne⟩
        | (refine ⟨rfl, fun hne => absurd h hne, ?_⟩
           intro s hs
           have h4 := hI4 s hs
           revert h4
           cases s <;> simp [ovStatesC5]
           done)
        | (simp_all
           done)
    · exact absurd (hI4 _ h) (by decide)
    · have hu : uh = h0 := by simpa using hI2 (by rw [h]; simp)
      subst hu
      simp only [step, stepPort] at hr
      repeat' split at hr
      all_goals subst hr
      all_goals first
        | exact trivial
        | exact ⟨rfl, fun hne => rfl⟩
        | (refine ⟨rfl, fun hne => rfl, ?_⟩
           intro s hs
           have h4 := hI4 s hs
           revert h4
           cases s <;> simp [ovStatesC5]
           done)
        | (simp_all
           done)
  case FileHost =>
    rcases hov with h | h | h | h
    · exact absurd (hI4 _ h) (by decide)
    · simp only [step, stepFileHost] at hr
      repeat' split at hr
      all_goals subst hr
      all_goals first
        | exact trivial
        | exact ⟨rfl, fun hne => absurd h hne⟩
        | (refine ⟨rfl, fun hne => absurd h hne, ?_⟩
           intro s hs
           have h4 := hI4 s hs
           revert h4
           cases s <;> simp [ovStatesC5]
           done)
        | (simp_all
           done)
    · have hu : uh = h0 := by simpa using hI2 (by rw [h]; simp)
      subst hu
      simp only [step, stepFileHost] at hr
      repeat' split at hr
      all_goals subst hr
      all_goals first
        | exact trivial
        | exact ⟨rfl, fun hne => rfl⟩
        | (refine ⟨rfl, fun hne => rfl, ?_⟩
           intro s hs
           have h4 := hI4 s hs
           revert h4
           cases s <;> simp [ovStatesC5]
           done)
        | (simp_all
           done)
    · exact absurd (hI4 _ h) (by decide)
  all_goals (rcases hov with h | h | h | h
             all_goals exact absurd (hI4 _ h) (by decide))

/-- C5 (amended): when a setter re-enters the basic URL parser on an
existing record with one of the failure-capable setter overrides and
that parse returns failure, then under the scheme start, hostname and
port overrides (the protocol, hostname and port setters) the record is
EXACTLY as it was before the setter ran, and under the host override
(the host setter) it has been mutated at most in its host field.  (The
original claim - that every such failing parse leaves the record exactly
as it was - is refuted by `claim_C5_cex`: the host setter's parse can
overwrite the host before the port parse fails.) -/
theorem claim_C5 (input : Str) (base : Option URLRec) (enc : Option Str)
    (u0 : URLRec) (ov : Option PState) (d2a : Str → Option Str)
    (li fuel : Nat) (st' : MState)
    (hov : ov = some PState.SchemeStart ∨ ov = some PState.Host ∨
      ov = some PState.Hostname ∨ ov = some PState.Port)
    (hrun : basicURLParser input base enc (some u0) ov d2a li fuel =
      some (Outcome.failure st')) :
    st'.url = { u0 with host := st'.url.host } ∧
    (ov ≠ some PState.Host → st'.url = u0) := by
  simp only [basicURLParser] at hrun
  refine runAux_induct _ (c5Inv _ u0) (failOut u0 ov)
    (fun st p h => ⟨h.1, h.2.1, h.2.2⟩) (fun st h => trivial)
    (fun st hI => c5_stepOk _ u0 hov st hI) fuel _ ⟨?_, ?_, ?_⟩
    (Outcome.failure st') hrun
  · exact rfl
  · intro hne
    exact rfl
  · intro s hs
    have hs2 : ov = some s := hs
    rcases hov with h | h | h | h <;>
      (rw [h] at hs2; injection hs2 with h2; subst h2; rw [h]
       simp [ovStatesC5, Option.getD])

/-- The final machine state of the first witness run: the host setter's
parse of `a:65536` over `http://x/` (host already rewritten, port parse
failed). -/
def c5WitnessState : MState :=
  { url := { httpXRec with host := some (Host.str "a".data) },
    buffer := "65536".data, atFlag := false, arrayFlag := false,
    passwordTokenSeenFlag := false, encoding := "UTF-8".data,
    state := PState.Port, pointer := 7, fhcpLastIndex := 0 }

/-- The final machine state of the second witness run: the port setter's
parse of `99999` over `http://x/` (port parse failed with the record
untouched). -/
def c5PortWitnessState : MState :=
  { url := httpXRec,
    buffer := "99999".data, atFlag := false, arrayFlag := false,
    passwordTokenSeenFlag := false, encoding := "UTF-8".data,
    state := PState.Port, pointer := 5, fhcpLastIndex := 0 }

theorem claim_C5_witness :
    (basicURLParser "a:65536".data none none (some httpXRec)
      (some PState.Host) d2aId 0 64 =
      some (Outcome.failure c5WitnessState) ∧
     c5WitnessState.url = { httpXRec with host := c5WitnessState.url.host }) ∧
    (basicURLParser "99999".data none none (some httpXRec)
      (some PState.Port) d2aId 0 64 =
      some (Outcome.failure c5PortWitnessState) ∧
     c5PortWitnessState.url = httpXRec) :=
  ⟨⟨by decide,
    (claim_C5 "a:65536".data none none httpXRec (some PState.Host) d2aId 0 64
      c5WitnessState (Or.inr (Or.inl rfl)) (by decide)).1⟩,
   ⟨by decide,
    (claim_C5 "99999".data none none httpXRec (some PState.Port) d2aId 0 64
      c5PortWitnessState (Or.inr (Or.inr (Or.inr rfl))) (by decide)).2
      (by decide)⟩⟩

/-- The early-exit condition of the scheme state's `:`-with-override
branch, exactly as the code tests it: (a) exactly one of the current
scheme and the buffered scheme is special, (b) the record has credentials
or a non-null port and the buffered scheme is `file`, or (c) the record's
CURRENT scheme is `file` and its host is the empty string or null. -/
def schemeOverrideBlocked (st : MState) : Bool :=
  (isSpecialScheme st.url.scheme && !isSpecialScheme st.buffer) ||
  (!isSpecialScheme st.url.scheme && isSpecialScheme st.buffer) ||
  ((includesCredentials st.url || st.url.port ≠ none) &&
    st.buffer = "file".data) ||
  (st.url.scheme = "file".data &&
    (st.url.host = some (Host.str []) || st.url.host = none))

/-- C7 (amended): when the parser runs with a state override and reaches
`:` in the scheme state, it returns early with the record unchanged
exactly when `schemeOverrideBlocked` holds - whose third clause tests
whether the record's CURRENT scheme is `file` with a null or empty host,
not whether the record is transitioning from a non-file scheme to `file`
as the original claim said (refuted by `claim_C7_cex`); otherwise it sets
the scheme to the buffer and nulls the port if it equals the new scheme's
default port, and returns. -/
theorem claim_C7 (env : PEnv) (st : MState)
    (hov : env.ov.isSome = true)
    (hst : st.state = PState.Scheme)
    (hc : charAt env.input st.pointer = JChar.chr ':') :
    (schemeOverrideBlocked st = true →
      step env st = StepRes.halt (Outcome.success st)) ∧
    (schemeOverrideBlocked st = false →
      step env st = StepRes.halt (Outcome.success { st with
        url :=
          if ({ st.url with scheme := st.buffer } : URLRec).port =
              defaultPort st.buffer
          then { st.url with scheme := st.buffer, port := none }
          else { st.url with scheme := st.buffer } })) := by
  obtain ⟨url, buffer, atF, arrF, pwF, enc, state, ptr, li⟩ := st
  simp only at hst hc
  subst hst
  have hA : ¬((testASCIIAlphanumeric (charAt env.input ptr) ||
      decide (charAt env.input ptr = JChar.chr '+') ||
      decide (charAt env.input ptr = JChar.chr '-') ||
      decide (charAt env.input ptr = JChar.chr '.')) = true) := by
    rw [hc]
    decide
  constructor <;> intro hcond
  · simp only [step, stepScheme]
    rw [if_neg hA, if_pos hc]
    split
    · rfl
    · rename_i h
      exact absurd ((Bool.and_eq_true _ _).mpr ⟨hov, hcond⟩) h
  · simp only [step, stepScheme]
    rw [if_neg hA, if_pos hc]
    split
    · rename_i h
      exact absurd ((Bool.and_eq_true _ _).mp h).2
        (fun hx => Bool.false_ne_true (hcond.symm.trans hx))
    · rfl

/-- The environment of the C7 witness: input `:`, a scheme start state
override. -/
def c7Env : PEnv :=
  { input := ":".data, base := none, ov := some PState.SchemeStart,
    d2a := d2aId }

/-- The machine state of the C7 witness: scheme state at the `:`, record
scheme `ftp` with a null host, buffered scheme `file` (the scenario of
`claim_C7_cex`: the original condition (c) would block this transition;
the code does not). -/
def c7State : MState :=
  { url := ftpNullHostRec, buffer := "file".data, atFlag := false,
    arrayFlag := false, passwordTokenSeenFlag := false,
    encoding := "UTF-8".data, state := PState.Scheme, pointer := 0,
    fhcpLastIndex := 0 }

theorem claim_C7_witness :
    schemeOverrideBlocked c7State = false ∧
    step c7Env c7State =
      StepRes.halt (Outcome.success { c7State with
        url :=
          if ({ c7State.url with scheme := c7State.buffer } : URLRec).port =
              defaultPort c7State.buffer
          then { c7State.url with scheme := c7State.buffer, port := none }
          else { c7State.url with scheme := c7State.buffer } }) :=
  ⟨by decide, (claim_C7 c7Env c7State rfl rfl (by decide)).2 (by decide)⟩

theorem range8 : List.range 8 = [0, 1, 2, 3, 4, 5, 6, 7] := by decide

theorem hexDigitChar_eq_digitChar (n : Nat) (h : n < 16) :
    hexDigitChar n = Nat.digitChar n := by
  interval_cases n <;> decide

theorem toHexAux_eq_toDigitsCore (fuel : Nat) :
    ∀ n acc, toHexAux fuel n acc = Nat.toDigitsCore 16 fuel n acc := by
  induction fuel with
  | zero => intro n acc; rfl
  | succ f ih =>
    intro n acc
    simp only [toHexAux, Nat.toDigitsCore]
    rw [hexDigitChar_eq_digitChar _ (Nat.mod_lt _ (by norm_num))]
    by_cases hn : n < 16
    · rw [if_pos hn, if_pos (by omega)]
    · rw [if_neg hn, if_neg (by omega)]
      exact ih _ _

/-- The serializer's piece rendering is exactly the canonical base-16
digit string (shortest, lowercase). -/
theorem toHex_eq_toDigits (n : Nat) : toHex n = Nat.toDigits 16 n :=
  toHexAux_eq_toDigitsCore (n + 1) n []

theorem hexDigitChar_ne_colon (n : Nat) (h : n < 16) : hexDigitChar n ≠ ':' := by
  interval_cases n <;> decide

theorem toHexAux_ne_colon (fuel : Nat) :
    ∀ n acc, (∀ c ∈ acc, c ≠ ':') → ∀ c ∈ toHexAux fuel n acc, c ≠ ':' := by
  induction fuel with
  | zero => intro n acc h; exact h
  | succ f ih =>
    intro n acc h c hc
    simp only [toHexAux] at hc
    have hacc : ∀ c ∈ hexDigitChar (n % 16) :: acc, c ≠ ':' := by
      intro c hc
      rcases List.mem_cons.mp hc with h1 | h1
      · subst h1; exact hexDigitChar_ne_colon _ (Nat.mod_lt _ (by norm_num))
      · exact h c h1
    split at hc
    · exact hacc c hc
    · exact ih _ _ hacc c hc

theorem toHex_ne_colon (n : Nat) : ∀ c ∈ toHex n, c ≠ ':' :=
  toHexAux_ne_colon (n + 1) n [] (by simp)

theorem toHexAux_ne_nil (fuel : Nat) :
    ∀ n acc, acc ≠ [] → toHexAux fuel n acc ≠ [] := by
  induction fuel with
  | zero => intro n acc h; exact h
  | succ f ih =>
    intro n acc h
    simp only [toHexAux]
    split
    · simp
    · exact ih _ _ (by simp)

theorem toHex_ne_nil (n : Nat) : toHex n ≠ [] := by
  simp only [toHex, toHexAux]
  split
  · simp
  · exact toHexAux_ne_nil _ _ _ (by simp)

def adjColonPairs : Str → Nat
  | c1 :: c2 :: rest =>
    (if c1 = ':' ∧ c2 = ':' then 1 else 0) + adjColonPairs (c2 :: rest)
  | _ => 0

def boundaryPair : Option Char → Option Char → Nat
  | some c1, some c2 => if c1 = ':' ∧ c2 = ':' then 1 else 0
  | _, _ => 0

theorem adjColonPairs_append :
    ∀ xs ys : Str, adjColonPairs (xs ++ ys) =
      adjColonPairs xs + adjColonPairs ys + boundaryPair xs.getLast? ys.head?
  | [], ys => by simp [adjColonPairs, boundaryPair]
  | [x], ys => by
    cases ys with
    | nil => simp [adjColonPairs, boundaryPair]
    | cons y ys => simp only [List.singleton_append, adjColonPairs,
        boundaryPair, List.getLast?_singleton, List.head?_cons]; omega
  | x1 :: x2 :: xs, ys => by
    have ih := adjColonPairs_append (x2 :: xs) ys
    simp only [List.cons_append] at ih ⊢
    simp only [adjColonPairs]
    rw [List.getLast?_cons_cons]
    omega

theorem adj_of_no_colon : ∀ s : Str, (∀ c ∈ s, c ≠ ':') → adjColonPairs s = 0
  | [], _ => rfl
  | [_], _ => rfl
  | x1 :: x2 :: r, h => by
    have ht := adj_of_no_colon (x2 :: r) (fun c hc => h c (List.mem_cons_of_mem _ hc))
    have h1 : x1 ≠ ':' := h x1 (by simp)
    simp [adjColonPairs, ht, h1]

def flatSep (l : List Str) : Str := (List.intersperse [':'] l).flatten

def GoodChunks (l : List Str) : Prop :=
  ∀ s ∈ l, s ≠ [] ∧ ∀ c ∈ s, c ≠ ':'

theorem flatSep_props : ∀ l : List Str, GoodChunks l →
    adjColonPairs (flatSep l) = 0 ∧
    (∀ c, (flatSep l).head? = some c → c ≠ ':') ∧
    (∀ c, (flatSep l).getLast? = some c → c ≠ ':')
  | [], _ => ⟨rfl, by simp [flatSep], by simp [flatSep]⟩
  | [c], h => by
    have hc := h c (by simp)
    refine ⟨?_, ?_, ?_⟩
    · simpa [flatSep] using adj_of_no_colon c hc.2
    · intro x hx
      simp only [flatSep, List.intersperse, List.flatten] at hx
      exact hc.2 x (by
        have := List.mem_of_mem_head? (l := c ++ [].flatten) hx
        simpa using this)
    · intro x hx
      simp only [flatSep, List.intersperse, List.flatten] at hx
      exact hc.2 x (by
        have := List.mem_of_mem_getLast? (l := c ++ [].flatten) hx
        simpa using this)
  | c :: c2 :: l, h => by
    have hgood : GoodChunks (c2 :: l) :=
      fun s hs => h s (List.mem_cons_of_mem _ hs)
    have ih := flatSep_props (c2 :: l) hgood
    have hc := h c (by simp)
    have hexp : flatSep (c :: c2 :: l) = c ++ ':' :: flatSep (c2 :: l) := by
      simp [flatSep, List.intersperse]
    have hne : flatSep (c2 :: l) ≠ [] := by
      have := hgood c2 (by simp)
      simp only [flatSep, List.intersperse]
      cases l with
      | nil => simpa using this.1
      | cons d l => simp
    refine ⟨?_, ?_, ?_⟩
    · rw [hexp, adjColonPairs_append]
      have hcolon : adjColonPairs (':' :: flatSep (c2 :: l)) = 0 := by
        cases hfs : flatSep (c2 :: l) with
        | nil => rfl
        | cons r1 rs =>
          have hr1 : r1 ≠ ':' := ih.2.1 r1 (by rw [hfs]; rfl)
          have : adjColonPairs (r1 :: rs) = 0 := by rw [← hfs]; exact ih.1
          simp [adjColonPairs, hr1, this]
      have hlast : boundaryPair c.getLast? (':' :: flatSep (c2 :: l)).head? = 0 := by
        cases hgl : c.getLast? with
        | none => rfl
        | some cl =>
          have : cl ≠ ':' := hc.2 cl (List.mem_of_mem_getLast? hgl)
          simp [boundaryPair, this]
      rw [adj_of_no_colon c hc.2, hcolon, hlast]
    · intro x hx
      rw [hexp] at hx
      cases c with
      | nil => exact absurd rfl hc.1
      | cons a as =>
        simp only [List.cons_append, List.head?_cons] at hx
        cases hx
        exact hc.2 _ (by simp)
    · intro x hx
      rw [hexp, List.getLast?_append_of_ne_nil _ (by simp)] at hx
      cases hfs : flatSep (c2 :: l) with
      | nil => exact absurd hfs hne
      | cons r1 rs =>
        rw [hfs, List.getLast?_cons_cons] at hx
        exact ih.2.2 x (by rw [hfs]; exact hx)


def zeroRunLen (a : List Nat) (j : Nat) : Nat :=
  ((a.drop j).takeWhile (fun x => x = 0)).length

def maxZeroRun (a : List Nat) : Nat :=
  ((List.range 8).map (zeroRunLen a)).foldr max 0

def firstLongestStart (a : List Nat) : Option Nat :=
  (List.range 8).find? (fun j => zeroRunLen a j = maxZeroRun a)

def specIPv6Serializer (a : List Nat) : Str :=
  if 2 ≤ maxZeroRun a then
    match firstLongestStart a with
    | some j =>
        flatSep ((a.take j).map toHex) ++ "::".data ++
        flatSep ((a.drop (j + maxZeroRun a)).map toHex)
    | none => []
  else flatSep (a.map toHex)

theorem goodChunks_map_toHex (l : List Nat) : GoodChunks (l.map toHex) := by
  intro s hs
  rcases List.mem_map.mp hs with ⟨n, _, rfl⟩
  exact ⟨toHex_ne_nil n, toHex_ne_colon n⟩

theorem foldr_max_mem : ∀ l : List Nat, l.foldr max 0 = 0 ∨ l.foldr max 0 ∈ l := by
  intro l
  induction l with
  | nil => exact Or.inl rfl
  | cons x xs ih =>
    simp only [List.foldr_cons]
    rcases max_choice x (xs.foldr max 0) with h | h
    · rw [h]; exact Or.inr (by simp)
    · rw [h]
      rcases ih with h2 | h2
      · exact Or.inl h2
      · exact Or.inr (List.mem_cons_of_mem _ h2)

theorem firstLongestStart_isSome (a : List Nat) (h : 2 ≤ maxZeroRun a) :
    (firstLongestStart a).isSome = true := by
  rcases foldr_max_mem ((List.range 8).map (zeroRunLen a)) with h0 | hmem
  · exact absurd (h.trans_eq h0) (by norm_num)
  · rcases List.mem_map.mp hmem with ⟨j, hj, hje⟩
    exact List.find?_isSome.mpr ⟨j, hj, by simp [hje, maxZeroRun]⟩

theorem adj_specIPv6 (a : List Nat) :
    adjColonPairs (specIPv6Serializer a) =
      if 2 ≤ maxZeroRun a then 1 else 0 := by
  unfold specIPv6Serializer
  split
  · rename_i hmax
    cases hf : firstLongestStart a with
    | none =>
      have := firstLongestStart_isSome a hmax
      rw [hf] at this
      cases this
    | some j =>
      have hP := flatSep_props ((a.take j).map toHex) (goodChunks_map_toHex _)
      have hS := flatSep_props ((a.drop (j + maxZeroRun a)).map toHex)
        (goodChunks_map_toHex _)
      dsimp only
      rw [List.append_assoc, adjColonPairs_append]
      have hmid : adjColonPairs ("::".data ++
          flatSep ((a.drop (j + maxZeroRun a)).map toHex)) = 1 := by
        rw [show "::".data = [':'] ++ [':'] from rfl, List.append_assoc,
          adjColonPairs_append]
        have h2 : adjColonPairs ([':'] ++
            flatSep ((a.drop (j + maxZeroRun a)).map toHex)) = 0 := by
          cases hfs : flatSep ((a.drop (j + maxZeroRun a)).map toHex) with
          | nil => rfl
          | cons r1 rs =>
            have hr1 : r1 ≠ ':' := hS.2.1 r1 (by rw [hfs]; rfl)
            have h0 : adjColonPairs (r1 :: rs) = 0 := by rw [← hfs]; exact hS.1
            simp [adjColonPairs, hr1, h0]
        rw [h2]
        cases hfs : flatSep ((a.drop (j + maxZeroRun a)).map toHex) with
        | nil => rfl
        | cons r1 rs =>
          have hr1 : r1 ≠ ':' := hS.2.1 r1 (by rw [hfs]; rfl)
          simp [adjColonPairs, boundaryPair, hr1]
      rw [hmid, hP.1]
      have hbnd : boundaryPair ((flatSep ((a.take j).map toHex)).getLast?)
          (("::".data ++
            flatSep ((a.drop (j + maxZeroRun a)).map toHex)).head?) = 0 := by
        cases hgl : (flatSep ((a.take j).map toHex)).getLast? with
        | none => rfl
        | some cl =>
          have : cl ≠ ':' := hP.2.2 cl hgl
          simp [boundaryPair, this]
      rw [hbnd]
  · rw [(flatSep_props (a.map toHex) (goodChunks_map_toHex a)).1]

set_option maxHeartbeats 12000000 in
/-- The IPv6 serializer agrees with the spec-side closed form
`specIPv6Serializer` on every eight-piece address. -/
theorem iPv6_spec_eq (a0 a1 a2 a3 a4 a5 a6 a7 : Nat) :
    iPv6Serializer [a0, a1, a2, a3, a4, a5, a6, a7] =
      specIPv6Serializer [a0, a1, a2, a3, a4, a5, a6, a7] := by
  rcases a0 with _ | b0 <;> rcases a1 with _ | b1 <;> rcases a2 with _ | b2 <;>
    rcases a3 with _ | b3 <;> rcases a4 with _ | b4 <;> rcases a5 with _ | b5 <;>
    rcases a6 with _ | b6 <;> rcases a7 with _ | b7 <;>
    simp [iPv6Serializer, iPv6RenderFold, iPv6Compress, findCompressFold,
      consecZeros, specIPv6Serializer, zeroRunLen, maxZeroRun,
      firstLongestStart, flatSep, range8]

/-- C6: for every list of eight pieces, the IPv6 serializer's output is
the spec-side closed form `specIPv6Serializer`: the pieces rendered by
`toHex` and separated by `:`, with the FIRST longest run of at least two
consecutive zero pieces collapsed to `::` (and no collapse when no such
run exists); the output contains exactly one adjacent colon pair `::`
when such a run exists and none otherwise - so at most one `::`, and
`::` appears only if a zero-run of length at least 2 exists; and the
piece rendering `toHex` is Lean's canonical base-16 digit string - the
shortest lowercase hexadecimal representation. -/
theorem claim_C6 (a0 a1 a2 a3 a4 a5 a6 a7 : Nat) :
    iPv6Serializer [a0, a1, a2, a3, a4, a5, a6, a7] =
      specIPv6Serializer [a0, a1, a2, a3, a4, a5, a6, a7] ∧
    adjColonPairs (iPv6Serializer [a0, a1, a2, a3, a4, a5, a6, a7]) =
      (if 2 ≤ maxZeroRun [a0, a1, a2, a3, a4, a5, a6, a7] then 1 else 0) ∧
    toHex = fun n => Nat.toDigits 16 n :=
  ⟨iPv6_spec_eq a0 a1 a2 a3 a4 a5 a6 a7,
    by rw [iPv6_spec_eq]; exact adj_specIPv6 _,
    funext toHex_eq_toDigits⟩

/-- C10 (amended): for every input string, base record, external
`domain_to_ascii`, regex state and fuel, `basicURLParser` invoked with no
encoding override, no caller-supplied url record and no state override
never lets an exception escape - PROVIDED the base, when it is a
file-scheme record, has a non-empty path (the counterexample
`claim_C10_cex` shows the original claim fails without this proviso: the
file slash state reads `baseURL.path[0]` and a `TypeError` escapes).  In
particular the null-base branches of the relative and relative slash
states and the non-UTF-8 branch of the query state are unreachable, as
the claim says. -/
theorem claim_C10 (input : Str) (base : Option URLRec)
    (d2a : Str → Option Str) (li fuel : Nat)
    (hB : ∀ b, base = some b → ¬(b.scheme = "file".data ∧ b.path = [])) :
    isThrownOutcome (basicURLParser input base none none none d2a li fuel) =
      false := by
  unfold basicURLParser
  cases hrun : runAux
      { input := cleanInput input (none : Option URLRec).isSome, base := base,
        ov := none, d2a := d2a } fuel
      { url := (none : Option URLRec).getD newURL, buffer := [],
        atFlag := false, arrayFlag := false, passwordTokenSeenFlag := false,
        encoding := getOutputEncoding none,
        state := (none : Option PState).getD .SchemeStart, pointer := 0,
        fhcpLastIndex := li } with
  | none => rfl
  | some o =>
    have hnt : notThrown o := by
      refine runAux_induct _ (c10Inv _) notThrown
        (fun st p h => ⟨h.1, h.2⟩) (fun st h => trivial)
        (fun st hI => c10_stepOk _ hB st hI) fuel _ ⟨rfl, fun hx => ?_⟩ o hrun
      rcases hx with h | h | h <;> cases h
    cases o with
    | success st => rfl
    | failure st => rfl
    | thrown st => exact absurd hnt (by simp [notThrown])

/-- C10 witness: the amended theorem applied at the concrete input
`http://h/` with no base. -/
theorem claim_C10_witness :
    isThrownOutcome (basicURLParser "http://h/".data none none none none
      d2aId 0 32) = false :=
  claim_C10 "http://h/".data none d2aId 0 32 (fun b hb => by cases hb)

end Url